import Mathlib

/-!
Verification development for the SquadScore backend (`src/backend/server.py`).

The development is a shallow embedding of the score-aggregation and
leaderboard-normalization engine of the FastAPI server:

* MongoDB collections are modelled as Lean lists of documents, kept in
  insertion order (Mongo `insert_one`/`insert_many` append, `find` without a
  sort returns insertion order).
* `update_one` with an `$inc` modifier is modelled as an update of the first
  matching document; when no document matches, the update is a silent no-op
  (the server relies on this for resilient session deletion).
* Python `int` is modelled as `Int` (arbitrary precision in Python);
  Python `float` values produced by the normalization engine are modelled as
  exact rationals `ℚ` (the engine only divides, sums and rounds).
* Python `//` (floor division) is `Int.fdiv`.
* `datetime` timestamps are modelled as rationals on a month scale:
  `datetime(year, month, 1)` becomes `year * 12 + (month - 1)`; an arbitrary
  timestamp may fall between month starts.  Only order matters to the code.
-/

/-! ## Data model (`server.py` lines 50-120) -/

/-- `PlayerScore` (server.py lines 80-83). -/
structure PlayerScore where
  player_id : String
  player_name : String
  score : Int
deriving DecidableEq, Repr

/-- `TeamScore` (server.py lines 85-89): `player_ids` is the denormalized
membership snapshot taken at record time. -/
structure TeamScore where
  team_id : String
  team_name : String
  score : Int
  player_ids : List String
deriving DecidableEq, Repr

/-- `GameSession` (server.py lines 91-98).  `game_date` and `created_date`
are timestamps (see the header on the datetime model). -/
structure GameSession where
  id : String
  group_id : String
  game_name : String
  game_date : ℚ
  player_scores : List PlayerScore
  team_scores : List TeamScore
  created_date : ℚ
deriving DecidableEq, Repr

/-- `Player` document (server.py lines 50-57). -/
structure Player where
  id : String
  player_name : String
  group_id : String
  emoji : String
  total_score : Int
  games_played : Int
  created_date : ℚ
deriving DecidableEq, Repr

/-- `Team` document (server.py lines 65-72). -/
structure Team where
  id : String
  team_name : String
  group_id : String
  player_ids : List String
  total_score : Int
  games_played : Int
  created_date : ℚ
deriving DecidableEq, Repr

/-- The three mutable collections the score engine touches (`db.players`,
`db.teams`, `db.game_sessions`), each in insertion order. -/
structure DB where
  players : List Player
  teams : List Team
  sessions : List GameSession
deriving DecidableEq, Repr

/-! ## Generic collection operations

`updateFirst p f l` is Mongo `update_one(filter, modifier)`: the first
document satisfying `p` is replaced by its image under `f`; if none matches
the collection is unchanged. -/

def updateFirst (p : α → Bool) (f : α → α) : List α → List α
  | [] => []
  | a :: l => if p a then f a :: l else a :: updateFirst p f l

theorem updateFirst_congr (p : α → Bool) {f g : α → α} (h : ∀ a, f a = g a) :
    ∀ l : List α, updateFirst p f l = updateFirst p g l := by
  intro l
  induction l with
  | nil => rfl
  | cons a l ih =>
    by_cases hp : p a <;> simp [updateFirst, hp, h a, ih]

theorem updateFirst_id (p : α → Bool) :
    ∀ l : List α, updateFirst p (fun a => a) l = l := by
  intro l
  induction l with
  | nil => rfl
  | cons a l ih =>
    by_cases hp : p a <;> simp [updateFirst, hp, ih]

theorem updateFirst_updateFirst (p : α → Bool) (f g : α → α)
    (hpg : ∀ a, p (g a) = p a) :
    ∀ l : List α,
      updateFirst p f (updateFirst p g l) = updateFirst p (fun a => f (g a)) l := by
  intro l
  induction l with
  | nil => rfl
  | cons a l ih =>
    by_cases hp : p a
    · simp [updateFirst, hp, hpg a]
    · simp [updateFirst, hp, ih]

theorem updateFirst_comm (p q : α → Bool) (f g : α → α)
    (hpg : ∀ a, p (g a) = p a) (hqf : ∀ a, q (f a) = q a)
    (hcomm : ∀ a, f (g a) = g (f a)) :
    ∀ l : List α,
      updateFirst p f (updateFirst q g l) = updateFirst q g (updateFirst p f l) := by
  intro l
  induction l with
  | nil => rfl
  | cons a l ih =>
    by_cases hq : q a
    · by_cases hp : p a
      · simp [updateFirst, hp, hq, hpg a, hqf a, hcomm a]
      · simp [updateFirst, hp, hq, hpg a]
    · by_cases hp : p a
      · simp [updateFirst, hp, hq, hqf a]
      · simp [updateFirst, hp, hq, ih]

theorem mem_updateFirst (p : α → Bool) (f : α → α) :
    ∀ l : List α, ∀ b ∈ updateFirst p f l, b ∈ l ∨ ∃ a ∈ l, b = f a := by
  intro l
  induction l with
  | nil => intro b hb; cases hb
  | cons a l ih =>
    intro b hb
    by_cases hp : p a
    · simp [updateFirst, hp] at hb
      rcases hb with hb | hb
      · exact Or.inr ⟨a, by simp, hb⟩
      · exact Or.inl (by simp [hb])
    · simp [updateFirst, hp] at hb
      rcases hb with hb | hb
      · exact Or.inl (by simp [hb])
      · rcases ih b hb with h | ⟨a', ha', rfl⟩
        · exact Or.inl (by simp [h])
        · exact Or.inr ⟨a', by simp [ha'], rfl⟩

/-! ## Score Ledger mutations

`incFirstPlayer pid ds dg` is
`db.players.update_one({"id": pid}, {"$inc": {"total_score": ds, "games_played": dg}})`
(server.py lines 330-338 and elsewhere); `incFirstTeam` likewise for teams. -/

def incPlayerDoc (ds dg : Int) (d : Player) : Player :=
  { d with total_score := d.total_score + ds, games_played := d.games_played + dg }

def incTeamDoc (ds dg : Int) (t : Team) : Team :=
  { t with total_score := t.total_score + ds, games_played := t.games_played + dg }

def incFirstPlayer (pid : String) (ds dg : Int) (l : List Player) : List Player :=
  updateFirst (fun d => d.id = pid) (incPlayerDoc ds dg) l

def incFirstTeam (tid : String) (ds dg : Int) (l : List Team) : List Team :=
  updateFirst (fun t => t.id = tid) (incTeamDoc ds dg) l

/-! ## Session create / delete (server.py lines 304-425) -/

/-- The team-score distribution step of `update_player_team_stats`
(server.py lines 353-365): if the snapshot `player_ids` is non-empty,
`score // len(player_ids)` is added to every member, with one game counted. -/
def distributeTeamScore (ts : TeamScore) (players : List Player) : List Player :=
  if ts.player_ids ≠ [] then
    let score_per_player := Int.fdiv ts.score ts.player_ids.length
    ts.player_ids.foldl (fun acc pid => incFirstPlayer pid score_per_player 1 acc) players
  else players

/-- `update_player_team_stats` (server.py lines 325-365): individual player
scores, then each team score followed by its distribution to members. -/
def update_player_team_stats (sess : GameSession) (db : DB) : DB :=
  let players :=
    sess.player_scores.foldl
      (fun acc e => incFirstPlayer e.player_id e.score 1 acc) db.players
  sess.team_scores.foldl
    (fun st ts =>
      { st with
        teams := incFirstTeam ts.team_id ts.score 1 st.teams,
        players := distributeTeamScore ts st.players })
    { db with players := players }

/-- The revert half of `delete_game_session` (server.py lines 381-418):
every delta of `update_player_team_stats` negated, driven by the session's
stored `player_ids` snapshots. -/
def revertTeamScoreDistribution (ts : TeamScore) (players : List Player) : List Player :=
  if ts.player_ids ≠ [] then
    let score_per_player := Int.fdiv ts.score ts.player_ids.length
    ts.player_ids.foldl (fun acc pid => incFirstPlayer pid (-score_per_player) (-1) acc) players
  else players

def revert_player_team_stats (sess : GameSession) (db : DB) : DB :=
  let players :=
    sess.player_scores.foldl
      (fun acc e => incFirstPlayer e.player_id (-e.score) (-1) acc) db.players
  sess.team_scores.foldl
    (fun st ts =>
      { st with
        teams := incFirstTeam ts.team_id (-ts.score) (-1) st.teams,
        players := revertTeamScoreDistribution ts st.players })
    { db with players := players }

/-- `create_game_session` (server.py lines 304-323), after the group
existence check passed: insert the session document, then update stats. -/
def create_game_session (sess : GameSession) (db : DB) : DB :=
  update_player_team_stats sess { db with sessions := db.sessions ++ [sess] }

/-- `delete_game_session` (server.py lines 373-425): find the session by id
(404 → `none`), revert its ledger effect using the stored values, then
delete the session document. -/
def delete_game_session (session_id : String) (db : DB) : Option DB :=
  match db.sessions.find? (fun s => s.id = session_id) with
  | none => none
  | some sess =>
      let reverted := revert_player_team_stats sess db
      some { reverted with
             sessions := db.sessions.eraseP (fun s => s.id = session_id) }

/-! ## Increment lists

Each `$inc` issued by `update_player_team_stats` / `delete_game_session` is
an `(id, delta_score, delta_games)` triple; the folds in those functions are
shown below to be the sequential application of such a list. -/

abbrev Inc := String × Int × Int

def negList (L : List Inc) : List Inc := L.map (fun e => (e.1, -e.2.1, -e.2.2))

def applyIncsP (L : List Inc) (l : List Player) : List Player :=
  L.foldl (fun acc e => incFirstPlayer e.1 e.2.1 e.2.2 acc) l

def applyIncsT (L : List Inc) (l : List Team) : List Team :=
  L.foldl (fun acc e => incFirstTeam e.1 e.2.1 e.2.2 acc) l

theorem incPlayerDoc_id (ds dg : Int) (d : Player) :
    (incPlayerDoc ds dg d).id = d.id := rfl

theorem incFirstPlayer_comm (p q : String) (a b c d : Int) (l : List Player) :
    incFirstPlayer p a b (incFirstPlayer q c d l)
      = incFirstPlayer q c d (incFirstPlayer p a b l) := by
  refine updateFirst_comm _ _ _ _ ?_ ?_ ?_ l
  · intro x; simp [incPlayerDoc]
  · intro x; simp [incPlayerDoc]
  · intro x; simp [incPlayerDoc]; omega

theorem incFirstPlayer_cancel (p : String) (a b : Int) (l : List Player) :
    incFirstPlayer p (-a) (-b) (incFirstPlayer p a b l) = l := by
  have h := updateFirst_updateFirst (fun d : Player => d.id = p)
      (incPlayerDoc (-a) (-b)) (incPlayerDoc a b)
      (by intro x; simp [incPlayerDoc]) l
  unfold incFirstPlayer
  rw [h, updateFirst_congr _ (g := fun x => x), updateFirst_id]
  intro x
  cases x
  simp [incPlayerDoc]

theorem incFirstTeam_comm (p q : String) (a b c d : Int) (l : List Team) :
    incFirstTeam p a b (incFirstTeam q c d l)
      = incFirstTeam q c d (incFirstTeam p a b l) := by
  refine updateFirst_comm _ _ _ _ ?_ ?_ ?_ l
  · intro x; simp [incTeamDoc]
  · intro x; simp [incTeamDoc]
  · intro x; simp [incTeamDoc]; omega

theorem incFirstTeam_cancel (p : String) (a b : Int) (l : List Team) :
    incFirstTeam p (-a) (-b) (incFirstTeam p a b l) = l := by
  have h := updateFirst_updateFirst (fun t : Team => t.id = p)
      (incTeamDoc (-a) (-b)) (incTeamDoc a b)
      (by intro x; simp [incTeamDoc]) l
  unfold incFirstTeam
  rw [h, updateFirst_congr _ (g := fun x => x), updateFirst_id]
  intro x
  cases x
  simp [incTeamDoc]

theorem applyIncsP_inc_comm (L : List Inc) :
    ∀ (l : List Player) (p : String) (a b : Int),
      applyIncsP L (incFirstPlayer p a b l) = incFirstPlayer p a b (applyIncsP L l) := by
  induction L with
  | nil => intro l p a b; rfl
  | cons e L ih =>
    intro l p a b
    show applyIncsP L (incFirstPlayer e.1 e.2.1 e.2.2 (incFirstPlayer p a b l)) = _
    rw [incFirstPlayer_comm, ih]
    rfl

theorem applyIncsT_inc_comm (L : List Inc) :
    ∀ (l : List Team) (p : String) (a b : Int),
      applyIncsT L (incFirstTeam p a b l) = incFirstTeam p a b (applyIncsT L l) := by
  induction L with
  | nil => intro l p a b; rfl
  | cons e L ih =>
    intro l p a b
    show applyIncsT L (incFirstTeam e.1 e.2.1 e.2.2 (incFirstTeam p a b l)) = _
    rw [incFirstTeam_comm, ih]
    rfl

theorem applyIncsP_cancel (L : List Inc) :
    ∀ l : List Player, applyIncsP (negList L) (applyIncsP L l) = l := by
  induction L with
  | nil => intro l; rfl
  | cons e L ih =>
    intro l
    show applyIncsP (negList L)
        (incFirstPlayer e.1 (-e.2.1) (-e.2.2) (applyIncsP L (incFirstPlayer e.1 e.2.1 e.2.2 l)))
        = l
    rw [applyIncsP_inc_comm, applyIncsP_inc_comm, applyIncsP_inc_comm, ih,
      incFirstPlayer_cancel]

theorem applyIncsT_cancel (L : List Inc) :
    ∀ l : List Team, applyIncsT (negList L) (applyIncsT L l) = l := by
  induction L with
  | nil => intro l; rfl
  | cons e L ih =>
    intro l
    show applyIncsT (negList L)
        (incFirstTeam e.1 (-e.2.1) (-e.2.2) (applyIncsT L (incFirstTeam e.1 e.2.1 e.2.2 l)))
        = l
    rw [applyIncsT_inc_comm, applyIncsT_inc_comm, applyIncsT_inc_comm, ih,
      incFirstTeam_cancel]

/-! ## Decomposition of the session stat updates into increment lists -/

def teamIncs (ts : TeamScore) : List Inc :=
  if ts.player_ids ≠ [] then
    ts.player_ids.map (fun pid => (pid, Int.fdiv ts.score ts.player_ids.length, (1 : Int)))
  else []

def listJoin : List (List α) → List α
  | [] => []
  | a :: L => a ++ listJoin L

/-- All player-collection increments issued by `update_player_team_stats`:
one per individual score, then the distributed team shares. -/
def createIncsP (sess : GameSession) : List Inc :=
  sess.player_scores.map (fun e => (e.player_id, e.score, (1 : Int)))
    ++ listJoin (sess.team_scores.map teamIncs)

/-- All team-collection increments issued by `update_player_team_stats`. -/
def createIncsT (sess : GameSession) : List Inc :=
  sess.team_scores.map (fun ts => (ts.team_id, ts.score, (1 : Int)))

theorem applyIncsP_append (L1 L2 : List Inc) (l : List Player) :
    applyIncsP (L1 ++ L2) l = applyIncsP L2 (applyIncsP L1 l) := by
  simp [applyIncsP, List.foldl_append]

theorem applyIncsT_append (L1 L2 : List Inc) (l : List Team) :
    applyIncsT (L1 ++ L2) l = applyIncsT L2 (applyIncsT L1 l) := by
  simp [applyIncsT, List.foldl_append]

theorem distributeTeamScore_eq (ts : TeamScore) (l : List Player) :
    distributeTeamScore ts l = applyIncsP (teamIncs ts) l := by
  by_cases h : ts.player_ids = []
  · simp [distributeTeamScore, teamIncs, h, applyIncsP]
  · simp [distributeTeamScore, teamIncs, h, applyIncsP, List.foldl_map]

theorem revertTeamScoreDistribution_eq (ts : TeamScore) (l : List Player) :
    revertTeamScoreDistribution ts l = applyIncsP (negList (teamIncs ts)) l := by
  by_cases h : ts.player_ids = []
  · simp [revertTeamScoreDistribution, teamIncs, h, applyIncsP, negList]
  · simp [revertTeamScoreDistribution, teamIncs, h, applyIncsP, negList,
      List.map_map, List.foldl_map]

theorem negList_append (L1 L2 : List Inc) :
    negList (L1 ++ L2) = negList L1 ++ negList L2 := by
  simp [negList]

theorem negList_listJoin (L : List (List Inc)) :
    negList (listJoin L) = listJoin (L.map negList) := by
  induction L with
  | nil => rfl
  | cons a L ih => simp [listJoin, negList_append, ih]

theorem teamScores_foldl_decomp (L : List TeamScore) :
    ∀ st : DB,
      L.foldl (fun st ts =>
        { st with
          teams := incFirstTeam ts.team_id ts.score 1 st.teams,
          players := distributeTeamScore ts st.players }) st
      = { players := applyIncsP (listJoin (L.map teamIncs)) st.players,
          teams := applyIncsT (L.map fun ts => (ts.team_id, ts.score, (1 : Int))) st.teams,
          sessions := st.sessions } := by
  induction L with
  | nil => intro st; rfl
  | cons ts L ih =>
    intro st
    show L.foldl _ _ = _
    rw [ih]
    simp [listJoin, applyIncsP_append, distributeTeamScore_eq, applyIncsT]

theorem negList_cons (e : Inc) (L : List Inc) :
    negList (e :: L) = (e.1, -e.2.1, -e.2.2) :: negList L := rfl

theorem applyIncsP_cons (e : Inc) (L : List Inc) (l : List Player) :
    applyIncsP (e :: L) l = applyIncsP L (incFirstPlayer e.1 e.2.1 e.2.2 l) := rfl

theorem applyIncsT_cons (e : Inc) (L : List Inc) (l : List Team) :
    applyIncsT (e :: L) l = applyIncsT L (incFirstTeam e.1 e.2.1 e.2.2 l) := rfl

theorem revert_teamScores_foldl_decomp (L : List TeamScore) :
    ∀ st : DB,
      L.foldl (fun st ts =>
        { st with
          teams := incFirstTeam ts.team_id (-ts.score) (-1) st.teams,
          players := revertTeamScoreDistribution ts st.players }) st
      = { players := applyIncsP (negList (listJoin (L.map teamIncs))) st.players,
          teams := applyIncsT (negList (L.map fun ts => (ts.team_id, ts.score, (1 : Int)))) st.teams,
          sessions := st.sessions } := by
  induction L with
  | nil => intro st; rfl
  | cons ts L ih =>
    intro st
    show L.foldl _ _ = _
    rw [ih]
    simp only [List.map_cons, listJoin, negList_append, negList_cons, applyIncsP_append,
      applyIncsT_cons, revertTeamScoreDistribution_eq]

theorem update_player_team_stats_decomp (sess : GameSession) (db : DB) :
    update_player_team_stats sess db
      = { players := applyIncsP (createIncsP sess) db.players,
          teams := applyIncsT (createIncsT sess) db.teams,
          sessions := db.sessions } := by
  unfold update_player_team_stats
  rw [teamScores_foldl_decomp]
  simp [createIncsP, createIncsT, applyIncsP_append, applyIncsP, List.foldl_map]

theorem revert_player_team_stats_decomp (sess : GameSession) (db : DB) :
    revert_player_team_stats sess db
      = { players := applyIncsP (negList (createIncsP sess)) db.players,
          teams := applyIncsT (negList (createIncsT sess)) db.teams,
          sessions := db.sessions } := by
  unfold revert_player_team_stats
  rw [revert_teamScores_foldl_decomp]
  simp only [createIncsP, createIncsT, negList_append, applyIncsP_append]
  congr 2
  simp [negList, applyIncsP, List.foldl_map, List.map_map]

/-- Deleting a session exactly reverses its ledger effect: the revert loop of
`delete_game_session` applied after `update_player_team_stats` is the
identity on the player and team collections. -/
theorem revert_update_player_team_stats (sess : GameSession) (db : DB) :
    revert_player_team_stats sess (update_player_team_stats sess db) = db := by
  rw [update_player_team_stats_decomp, revert_player_team_stats_decomp]
  simp [applyIncsP_cancel, applyIncsT_cancel]

theorem find?_append_of_forall_false (p : α → Bool) :
    ∀ l1 : List α, (∀ x ∈ l1, p x = false) →
      ∀ l2, List.find? p (l1 ++ l2) = List.find? p l2 := by
  intro l1
  induction l1 with
  | nil => intro _ l2; rfl
  | cons a l1 ih =>
    intro h l2
    have ha : p a = false := h a (by simp)
    simp only [List.cons_append, List.find?]
    rw [ha]
    exact ih (fun x hx => h x (by simp [hx])) l2

theorem eraseP_append_of_forall_false (p : α → Bool) :
    ∀ l1 : List α, (∀ x ∈ l1, p x = false) →
      ∀ l2, List.eraseP p (l1 ++ l2) = l1 ++ List.eraseP p l2 := by
  intro l1
  induction l1 with
  | nil => intro _ l2; rfl
  | cons a l1 ih =>
    intro h l2
    have ha : p a = false := h a (by simp)
    simp only [List.cons_append, List.eraseP_cons, ha, cond_false, List.cons_inj_right]
    exact ih (fun x hx => h x (by simp [hx])) l2

/-! ## Claim C1 -/

/-- C1: For every group state and every session record, executing
`create_game_session` and then immediately `delete_game_session` on the
session id it returned (a freshly generated UUID, so distinct from every
stored session id) restores every player's and every team's
`(total_score, games_played)` pair — in fact the whole database — to its
exact pre-creation value, the floor-divided team shares being subtracted
from the session's stored `player_ids` snapshot exactly as they were added. -/
theorem c1_create_then_delete_restores (db : DB) (sess : GameSession)
    (hfresh : ∀ s ∈ db.sessions, s.id ≠ sess.id) :
    delete_game_session sess.id (create_game_session sess db) = some db := by
  have hsessions : (create_game_session sess db).sessions = db.sessions ++ [sess] := by
    rw [create_game_session, update_player_team_stats_decomp]
  have hfalse : ∀ s ∈ db.sessions, (decide (s.id = sess.id)) = false := by
    intro s hs
    simp [hfresh s hs]
  unfold delete_game_session
  rw [hsessions, find?_append_of_forall_false _ _ hfalse,
    eraseP_append_of_forall_false _ _ hfalse]
  have hfind : List.find? (fun s => decide (s.id = sess.id)) [sess] = some sess := by
    simp [List.find?]
  have herase : List.eraseP (fun s => decide (s.id = sess.id)) [sess] = [] := by
    simp [List.eraseP]
  rw [hfind, herase, List.append_nil]
  have hrev :
      revert_player_team_stats sess (create_game_session sess db)
        = { db with sessions := db.sessions ++ [sess] } := by
    rw [create_game_session, revert_update_player_team_stats]
  simp [hrev]

/-- Concrete database for the C1 witness: two players and one team. -/
def c1db : DB :=
  { players := [⟨"p1", "Alice", "g", "e", 5, 1, 0⟩, ⟨"p2", "Bob", "g", "e", 2, 1, 0⟩],
    teams := [⟨"t1", "Reds", "g", ["p1", "p2"], 3, 1, 0⟩],
    sessions := [] }

/-- Concrete session for the C1 witness: an individual score and a team
score whose 9 points floor-divide over two members. -/
def c1sess : GameSession :=
  { id := "s1", group_id := "g", game_name := "Chess", game_date := 0,
    player_scores := [⟨"p1", "Alice", 7⟩],
    team_scores := [⟨"t1", "Reds", 9, ["p1", "p2"]⟩],
    created_date := 0 }

/-- Concrete witness for C1: the round trip restores the database exactly. -/
theorem c1_create_then_delete_restores_witness :
    (∀ s ∈ c1db.sessions, s.id ≠ c1sess.id) ∧
      delete_game_session c1sess.id (create_game_session c1sess c1db) = some c1db :=
  ⟨by decide, c1_create_then_delete_restores c1db c1sess (by decide)⟩

/-! ## Session filter (server.py lines 428-452)

`calculate_normalized_scores` builds a MongoDB filter document.  The
`game_name` condition is `{"$regex": game_name, "$options": "i"}` — an
unanchored case-insensitive regular-expression match; for a literal pattern
(no metacharacters) this is case-insensitive substring containment, which is
what is modelled here.  When a month is given without a (truthy) year the
code assigns the *empty document* `{}` as the `game_date` condition; Mongo
treats that as an equality match against the empty document, which no BSON
datetime satisfies, so it selects nothing — modelled by `DateCond.emptyDoc`.
Python truthiness is preserved: `0` and `""` count as absent filters. -/

inductive DateCond where
  | free
  | range (start stop : ℚ)
  | emptyDoc
deriving DecidableEq, Repr

/-- `datetime(year, month, 1)` on the month-scale timestamp model. -/
def monthStart (year month : Int) : ℚ := year * 12 + (month - 1)

/-- The `game_date` condition built at server.py lines 434-450, including the
Python-truthiness branches `if year or month:` / `if year:` / `if month:`. -/
def buildDateCond (year month : Option Int) : DateCond :=
  match year, month with
  | some y, some m =>
      if y ≠ 0 then
        if m ≠ 0 then
          DateCond.range (monthStart y m)
            (if m = 12 then monthStart (y + 1) 1 else monthStart y (m + 1))
        else DateCond.range (monthStart y 1) (monthStart (y + 1) 1)
      else if m ≠ 0 then DateCond.emptyDoc
      else DateCond.free
  | some y, none =>
      if y ≠ 0 then DateCond.range (monthStart y 1) (monthStart (y + 1) 1)
      else DateCond.free
  | none, some m => if m ≠ 0 then DateCond.emptyDoc else DateCond.free
  | none, none => DateCond.free

def dateMatches : DateCond → ℚ → Bool
  | DateCond.free, _ => true
  | DateCond.range s e, d => s ≤ d && d < e
  | DateCond.emptyDoc, _ => false

/-- Character-list matching at the start of the text. -/
def leadMatch : List Char → List Char → Bool
  | [], _ => true
  | _ :: _, [] => false
  | a :: ps, b :: ns => a == b && leadMatch ps ns

/-- Unanchored substring containment on character lists. -/
def subMatch (p : List Char) : List Char → Bool
  | [] => leadMatch p []
  | b :: ns => leadMatch p (b :: ns) || subMatch p ns

/-- ASCII lower-casing of one character; Mongo's `"i"` option (without a
collation) folds case ASCII-only, which this models. -/
def lowerChar (c : Char) : Char :=
  if 'A' ≤ c ∧ c ≤ 'Z' then Char.ofNat (c.toNat + 32) else c

/-- Mongo `{"$regex": pattern, "$options": "i"}` for a literal pattern:
case-insensitive substring containment. -/
def regexMatchI (pattern text : String) : Bool :=
  subMatch (pattern.data.map lowerChar) (text.data.map lowerChar)

structure SessionFilter where
  group_id : String
  game_name : Option String
  date : DateCond
deriving DecidableEq, Repr

/-- The `session_filter` document of server.py lines 431-450. -/
def buildSessionFilter (group_id : String) (game_name : Option String)
    (year month : Option Int) : SessionFilter :=
  { group_id := group_id,
    game_name :=
      match game_name with
      | some p => if p ≠ "" then some p else none
      | none => none,
    date := buildDateCond year month }

def filterMatches (f : SessionFilter) (s : GameSession) : Bool :=
  (s.group_id == f.group_id) &&
    (match f.game_name with
     | none => true
     | some p => regexMatchI p s.game_name) &&
    dateMatches f.date s.game_date

/-! ## Normalization engine (server.py lines 454-541)

Python dicts are modelled as insertion-ordered association lists:
`alLookup` is `dict.get`, `dictSet` is `dict[k] = v` (update in place, or
append for a new key). -/

def alLookup (g : String) : List (String × α) → Option α
  | [] => none
  | (k, v) :: rest => if k = g then some v else alLookup g rest

def dictSet (k : String) (v : α) : List (String × α) → List (String × α)
  | [] => [(k, v)]
  | (k', v') :: rest => if k' = k then (k', v) :: rest else (k', v') :: dictSet k v rest

/-- `game_scores[game_name].append(score)` after the key is guaranteed. -/
def pushScore (g : String) (s : Int) : List (String × List Int) → List (String × List Int)
  | [] => [(g, [s])]
  | (k, v) :: rest => if k = g then (k, v ++ [s]) :: rest else (k, v) :: pushScore g s rest

/-- `if game_name not in game_scores: game_scores[game_name] = []`. -/
def ensureKey (g : String) (gs : List (String × List Int)) : List (String × List Int) :=
  if (alLookup g gs).isSome then gs else gs ++ [(g, [])]

/-- Per-session bucket collection of `calculate_normalized_scores`
(server.py lines 458-474): every individual player score and every team
score is appended to the session's `game_name` bucket. -/
def sessionScoresStep (gs : List (String × List Int)) (sess : GameSession) :
    List (String × List Int) :=
  let gs := ensureKey sess.game_name gs
  let gs := sess.player_scores.foldl (fun acc e => pushScore sess.game_name e.score acc) gs
  sess.team_scores.foldl (fun acc ts => pushScore sess.game_name ts.score acc) gs

def collectGameScores (sessions : List GameSession) : List (String × List Int) :=
  sessions.foldl sessionScoresStep []

structure Normalization where
  min : Int
  max : Int
  range : Int
deriving DecidableEq, Repr

/-- `min(scores)`, `max(scores)` and the `range` rule of server.py
lines 478-486 for one non-empty bucket. -/
def mkNormOf : List Int → Option Normalization
  | [] => none
  | a :: rest =>
      let min_score := rest.foldl Min.min a
      let max_score := rest.foldl Max.max a
      some ⟨min_score, max_score,
        if max_score ≠ min_score then max_score - min_score else 1⟩

/-- `game_normalization` (server.py lines 477-486): buckets with at least
one score get their `min`/`max`/`range` record. -/
def mkNormalizations (gs : List (String × List Int)) : List (String × Normalization) :=
  gs.filterMap (fun kv => (mkNormOf kv.2).map (fun n => (kv.1, n)))

/-- `(raw_score - min) / range` (server.py lines 502, 520, 617). -/
def normalizeScore (n : Normalization) (raw_score : Int) : ℚ :=
  ((raw_score : ℚ) - (n.min : ℚ)) / (n.range : ℚ)

/-- Per-entity accumulator record of `player_stats` / `team_stats`. -/
structure PStat where
  name : String
  total_normalized_score : ℚ
  total_raw_score : Int
  games_played : Int
deriving DecidableEq, Repr

def statsInit (name : String) : PStat := ⟨name, 0, 0, 0⟩

/-- Insert-default-then-accumulate step shared by the player and team stats
loops (server.py lines 504-514, 527-539, 619-629). -/
def addToStats (d : List (String × PStat)) (pid name : String) (ns : ℚ) (raw : Int) :
    List (String × PStat) :=
  let cur := (alLookup pid d).getD (statsInit name)
  dictSet pid
    ⟨cur.name, cur.total_normalized_score + ns, cur.total_raw_score + raw,
      cur.games_played + 1⟩ d

/-- `db.players.find_one({"id": player_id})` name lookup with the
`"Unknown"` fallback (server.py lines 528-529). -/
def playerNameOf (playersColl : List Player) (pid : String) : String :=
  match playersColl.find? (fun d => d.id == pid) with
  | some p => p.player_name
  | none => "Unknown"

/-- The second pass of `calculate_normalized_scores` for one session
(server.py lines 489-539): individual scores, then team scores distributed
fractionally over the stored `player_ids` snapshot. -/
def processSession (playersColl : List Player) (norms : List (String × Normalization))
    (d : List (String × PStat)) (sess : GameSession) : List (String × PStat) :=
  match alLookup sess.game_name norms with
  | none => d
  | some normalization =>
      let d := sess.player_scores.foldl
        (fun d e =>
          addToStats d e.player_id e.player_name
            (normalizeScore normalization e.score) e.score) d
      sess.team_scores.foldl
        (fun d ts =>
          if ts.player_ids ≠ [] then
            let normalized_score := normalizeScore normalization ts.score
            let normalized_score_per_player :=
              normalized_score / (ts.player_ids.length : ℚ)
            let raw_score_per_player := Int.fdiv ts.score ts.player_ids.length
            ts.player_ids.foldl
              (fun d pid =>
                addToStats d pid (playerNameOf playersColl pid)
                  normalized_score_per_player raw_score_per_player) d
          else d) d

/-- `calculate_normalized_scores` (server.py lines 428-541). -/
def calculate_normalized_scores (playersColl : List Player)
    (sessionsColl : List GameSession) (group_id : String)
    (game_name : Option String) (year month : Option Int) :
    List (String × PStat) :=
  let session_filter := buildSessionFilter group_id game_name year month
  let sessions := sessionsColl.filter (filterMatches session_filter)
  let game_scores := collectGameScores sessions
  let game_normalization := mkNormalizations game_scores
  sessions.foldl (processSession playersColl game_normalization) []

/-! ## Leaderboard / stats projector (server.py lines 543-691)

`round(x, n)` on floats is modelled as exact round-half-to-even on ℚ.
Pydantic's `LeaderboardEntry.total_score` field is declared `int`, and the
handlers pass it the float `round(total_normalized_score, 2)`; pydantic v1
coerces by `int(...)`, i.e. truncation toward zero, modelled by `pyInt`. -/

def roundHalfEven (q : ℚ) : Int :=
  if q - ⌊q⌋ < 1 / 2 then ⌊q⌋
  else if 1 / 2 < q - ⌊q⌋ then ⌊q⌋ + 1
  else if ⌊q⌋ % 2 = 0 then ⌊q⌋ else ⌊q⌋ + 1

/-- Python `round(q, ndigits)`. -/
def round_py (q : ℚ) (ndigits : Nat) : ℚ :=
  (roundHalfEven (q * 10 ^ ndigits) : ℚ) / 10 ^ ndigits

/-- Python `int(...)` applied to a float: truncation toward zero. -/
def pyInt (q : ℚ) : Int := q.num / (q.den : Int)

/-- `LeaderboardEntry` (server.py lines 108-113). -/
structure LeaderboardEntry where
  id : String
  name : String
  total_score : Int
  games_played : Int
  average_score : ℚ
deriving DecidableEq, Repr

/-- `total_normalized_score / games_played if games_played > 0 else 0`
(server.py lines 558 and 634). -/
def avgNormalizedOf (stats : PStat) : ℚ :=
  if stats.games_played > 0 then stats.total_normalized_score / (stats.games_played : ℚ)
  else 0

/-- One leaderboard entry from an accumulator record (server.py
lines 561-567 and 636-642; the same construction appears in both the player
and the team leaderboard).  `avg_raw_score` is also computed by the code but
never used in the entry, so it is omitted here. -/
def entryOfStats (entity_id : String) (stats : PStat) : LeaderboardEntry :=
  { id := entity_id,
    name := stats.name,
    total_score := pyInt (round_py stats.total_normalized_score 2),
    games_played := stats.games_played,
    average_score := round_py (avgNormalizedOf stats) 3 }

/-- Stable descending insertion: the element goes before the first strictly
smaller total, after any equal ones. -/
def insertDesc (e : LeaderboardEntry) : List LeaderboardEntry → List LeaderboardEntry
  | [] => [e]
  | a :: l => if a.total_score < e.total_score then e :: a :: l else a :: insertDesc e l

/-- Python `list.sort(key=lambda x: x.total_score, reverse=True)`: a stable
descending sort by `total_score`. -/
def sortDesc (l : List LeaderboardEntry) : List LeaderboardEntry :=
  l.foldl (fun acc e => insertDesc e acc) []

/-- `get_player_leaderboard` (server.py lines 543-571). -/
def get_player_leaderboard (db : DB) (group_id : String) (game_name : Option String)
    (year month : Option Int) : List LeaderboardEntry :=
  let player_stats :=
    calculate_normalized_scores db.players db.sessions group_id game_name year month
  sortDesc (player_stats.map (fun kv => entryOfStats kv.1 kv.2))

/-! ## Team leaderboard (server.py lines 573-646)

The bucket-collection loop here (lines 583-590) appends **only team scores**
to each `game_name` bucket; the min/max/range computation (lines 592-602) is
textually identical to lines 476-486 and is therefore shared
(`mkNormalizations`). -/

/-- Per-session bucket collection of `get_team_leaderboard` (server.py
lines 583-590): only team scores are appended. -/
def teamScoresStep (gs : List (String × List Int)) (sess : GameSession) :
    List (String × List Int) :=
  let gs := ensureKey sess.game_name gs
  sess.team_scores.foldl (fun acc ts => pushScore sess.game_name ts.score acc) gs

def collectTeamGameScores (sessions : List GameSession) : List (String × List Int) :=
  sessions.foldl teamScoresStep []

/-- The team-stats accumulation pass (server.py lines 604-629). -/
def processTeamSession (norms : List (String × Normalization))
    (d : List (String × PStat)) (sess : GameSession) : List (String × PStat) :=
  match alLookup sess.game_name norms with
  | none => d
  | some normalization =>
      sess.team_scores.foldl
        (fun d ts =>
          addToStats d ts.team_id ts.team_name
            (normalizeScore normalization ts.score) ts.score) d

/-- `get_team_leaderboard` (server.py lines 573-646). -/
def get_team_leaderboard (db : DB) (group_id : String) : List LeaderboardEntry :=
  let sessions := db.sessions.filter (fun s => s.group_id == group_id)
  let game_normalization := mkNormalizations (collectTeamGameScores sessions)
  let team_stats := sessions.foldl (processTeamSession game_normalization) []
  sortDesc (team_stats.map (fun kv => entryOfStats kv.1 kv.2))

/-! ## Group statistics (server.py lines 648-691) -/

/-- `GroupStats` (server.py lines 115-120). -/
structure GroupStats where
  total_players : Int
  total_teams : Int
  total_games : Int
  most_played_game : Option String
  top_player : Option LeaderboardEntry
deriving DecidableEq, Repr

/-- `db.players.find_one({"group_id": ...}, sort=[("total_score", -1)])`:
the first document of maximal `total_score`; Mongo leaves the tie order
unspecified, modelled as first-in-insertion-order. -/
def topPlayerDoc : List Player → Option Player
  | [] => none
  | a :: rest =>
      some (rest.foldl (fun best d => if d.total_score > best.total_score then d else best) a)

def pushCount (g : String) : List (String × Nat) → List (String × Nat)
  | [] => [(g, 1)]
  | (k, c) :: rest => if k = g then (k, c + 1) :: rest else (k, c) :: pushCount g rest

/-- The `$group`/`$sort`/`$limit 1` aggregation for the most-played game
(server.py lines 659-666); the aggregation's tie order is unspecified,
modelled as first-in-insertion-order. -/
def most_played_of (sessions : List GameSession) : Option String :=
  match sessions.foldl (fun acc s => pushCount s.game_name acc) [] with
  | [] => none
  | a :: rest => some (rest.foldl (fun best kv => if kv.2 > best.2 then kv else best) a).1

/-- `total_score / games_played if games_played > 0 else 0` for the top
player document (server.py line 676). -/
def topPlayerAvg (d : Player) : ℚ :=
  if d.games_played > 0 then (d.total_score : ℚ) / (d.games_played : ℚ) else 0

/-- The `top_player` entry construction (server.py lines 675-683): raw
ledger `total_score` and `games_played`, rounded raw average. -/
def topPlayerEntry (d : Player) : LeaderboardEntry :=
  { id := d.id,
    name := d.player_name,
    total_score := d.total_score,
    games_played := d.games_played,
    average_score := round_py (topPlayerAvg d) 2 }

/-- `get_group_stats` (server.py lines 648-691). -/
def get_group_stats (db : DB) (group_id : String) : GroupStats :=
  let players := db.players.filter (fun d => d.group_id == group_id)
  let teams := db.teams.filter (fun t => t.group_id == group_id)
  let sessions := db.sessions.filter (fun s => s.group_id == group_id)
  { total_players := (players.length : Int),
    total_teams := (teams.length : Int),
    total_games := (sessions.length : Int),
    most_played_game := most_played_of sessions,
    top_player := (topPlayerDoc players).map topPlayerEntry }

/-! ## Facts about bucket collection and normalization records -/

theorem foldl_min_le (l : List Int) :
    ∀ (a : Int), ∀ x ∈ a :: l, l.foldl Min.min a ≤ x := by
  induction l with
  | nil =>
    intro a x hx
    rw [List.mem_cons] at hx
    rcases hx with rfl | hx
    · simp
    · cases hx
  | cons b l ih =>
    intro a x hx
    have hhead : l.foldl Min.min (min a b) ≤ min a b := ih (min a b) _ (by simp)
    rw [List.mem_cons, List.mem_cons] at hx
    rcases hx with rfl | rfl | hx
    · exact le_trans hhead (min_le_left _ _)
    · exact le_trans hhead (min_le_right _ _)
    · exact ih (min a b) x (by simp [List.mem_cons, hx])

theorem le_foldl_max (l : List Int) :
    ∀ (a : Int), ∀ x ∈ a :: l, x ≤ l.foldl Max.max a := by
  induction l with
  | nil =>
    intro a x hx
    rw [List.mem_cons] at hx
    rcases hx with rfl | hx
    · simp
    · cases hx
  | cons b l ih =>
    intro a x hx
    have hhead : max a b ≤ l.foldl Max.max (max a b) := ih (max a b) _ (by simp)
    rw [List.mem_cons, List.mem_cons] at hx
    rcases hx with rfl | rfl | hx
    · exact le_trans (le_max_left _ _) hhead
    · exact le_trans (le_max_right _ _) hhead
    · exact ih (max a b) x (by simp [List.mem_cons, hx])

theorem foldl_min_mem (l : List Int) :
    ∀ (a : Int), l.foldl Min.min a ∈ a :: l := by
  induction l with
  | nil => intro a; simp
  | cons b l ih =>
    intro a
    show l.foldl Min.min (min a b) ∈ a :: b :: l
    have h := ih (min a b)
    rw [List.mem_cons] at h
    rcases h with h | h
    · rw [h]
      rcases min_choice a b with hc | hc <;> rw [hc] <;> simp
    · simp [List.mem_cons, h]

theorem foldl_max_mem (l : List Int) :
    ∀ (a : Int), l.foldl Max.max a ∈ a :: l := by
  induction l with
  | nil => intro a; simp
  | cons b l ih =>
    intro a
    show l.foldl Max.max (max a b) ∈ a :: b :: l
    have h := ih (max a b)
    rw [List.mem_cons] at h
    rcases h with h | h
    · rw [h]
      rcases max_choice a b with hc | hc <;> rw [hc] <;> simp
    · simp [List.mem_cons, h]

/-- Everything `mkNormOf` promises about a bucket: the recorded min and max
bound the bucket, both are attained, and the range obeys the degenerate
rule. -/
theorem mkNormOf_spec (scores : List Int) (n : Normalization)
    (h : mkNormOf scores = some n) :
    (∀ x ∈ scores, n.min ≤ x ∧ x ≤ n.max)
      ∧ n.min ∈ scores ∧ n.max ∈ scores
      ∧ n.range = (if n.max ≠ n.min then n.max - n.min else 1) := by
  match scores with
  | [] => simp [mkNormOf] at h
  | a :: rest =>
    simp only [mkNormOf, Option.some.injEq] at h
    subst h
    refine ⟨?_, foldl_min_mem rest a, foldl_max_mem rest a, rfl⟩
    intro x hx
    exact ⟨foldl_min_le rest a x hx, le_foldl_max rest a x hx⟩

theorem alLookup_isSome_iff (g : String) :
    ∀ gs : List (String × α), (alLookup g gs).isSome = true ↔ g ∈ gs.map Prod.fst := by
  intro gs
  induction gs with
  | nil => simp [alLookup]
  | cons kv rest ih =>
    obtain ⟨k, v⟩ := kv
    by_cases hk : k = g
    · subst hk
      simp [alLookup]
    · simp only [alLookup, if_neg hk, List.map_cons, List.mem_cons, ih]
      constructor
      · intro h; exact Or.inr h
      · intro h
        rcases h with h | h
        · exact absurd h.symm hk
        · exact h

theorem alLookup_none_of_not_mem (g : String) (gs : List (String × α))
    (h : g ∉ gs.map Prod.fst) : alLookup g gs = none := by
  cases hl : alLookup g gs with
  | none => rfl
  | some v =>
    exact absurd ((alLookup_isSome_iff g gs).mp (by simp [hl])) h

theorem mkNormalizations_cons_none (k : String) (v : List Int)
    (rest : List (String × List Int)) (h : mkNormOf v = none) :
    mkNormalizations ((k, v) :: rest) = mkNormalizations rest := by
  simp [mkNormalizations, List.filterMap_cons, h]

theorem mkNormalizations_cons_some (k : String) (v : List Int)
    (rest : List (String × List Int)) (n : Normalization) (h : mkNormOf v = some n) :
    mkNormalizations ((k, v) :: rest) = (k, n) :: mkNormalizations rest := by
  simp [mkNormalizations, List.filterMap_cons, h]

theorem alLookup_cons_self (k : String) (v : α) (rest : List (String × α)) :
    alLookup k ((k, v) :: rest) = some v := by
  simp [alLookup]

theorem alLookup_cons_ne (k g : String) (v : α) (rest : List (String × α))
    (hk : k ≠ g) : alLookup g ((k, v) :: rest) = alLookup g rest := by
  simp [alLookup, hk]

theorem mkNormalizations_keys_subset :
    ∀ gs : List (String × List Int),
      ∀ g ∈ (mkNormalizations gs).map Prod.fst, g ∈ gs.map Prod.fst := by
  intro gs
  induction gs with
  | nil => simp [mkNormalizations]
  | cons kv rest ih =>
    obtain ⟨k, v⟩ := kv
    intro g hg
    cases hv : mkNormOf v with
    | none =>
      rw [mkNormalizations_cons_none k v rest hv] at hg
      exact List.mem_cons_of_mem _ (ih g hg)
    | some n' =>
      rw [mkNormalizations_cons_some k v rest n' hv, List.map_cons] at hg
      rw [List.mem_cons] at hg
      rcases hg with hg | hg
      · simp [hg]
      · exact List.mem_cons_of_mem _ (ih g hg)

theorem alLookup_mkNormalizations_of_nodup (g : String) (n : Normalization) :
    ∀ gs : List (String × List Int), (gs.map Prod.fst).Nodup →
      alLookup g (mkNormalizations gs) = some n →
      ∃ scores, alLookup g gs = some scores ∧ mkNormOf scores = some n := by
  intro gs
  induction gs with
  | nil => intro _ h; simp [mkNormalizations, alLookup] at h
  | cons kv rest ih =>
    obtain ⟨k, v⟩ := kv
    intro hnd h
    rw [List.map_cons, List.nodup_cons] at hnd
    obtain ⟨hknot, hnd⟩ := hnd
    by_cases hk : k = g
    · subst hk
      cases hv : mkNormOf v with
      | some n' =>
        rw [mkNormalizations_cons_some k v rest n' hv, alLookup_cons_self] at h
        refine ⟨v, alLookup_cons_self k v rest, ?_⟩
        rw [hv]
        exact h
      | none =>
        rw [mkNormalizations_cons_none k v rest hv] at h
        have hnone : alLookup k (mkNormalizations rest) = none := by
          apply alLookup_none_of_not_mem
          intro hmem
          exact hknot (mkNormalizations_keys_subset rest k hmem)
        rw [hnone] at h
        cases h
    · have hstep : ∃ scores, alLookup g rest = some scores ∧ mkNormOf scores = some n := by
        cases hv : mkNormOf v with
        | some n' =>
          rw [mkNormalizations_cons_some k v rest n' hv, alLookup_cons_ne k g n' _ hk] at h
          exact ih hnd h
        | none =>
          rw [mkNormalizations_cons_none k v rest hv] at h
          exact ih hnd h
      obtain ⟨scores, hsc, hn'⟩ := hstep
      exact ⟨scores, by rw [alLookup_cons_ne k g v rest hk]; exact hsc, hn'⟩

theorem pushScore_keys (g : String) (s : Int) :
    ∀ gs : List (String × List Int),
      (pushScore g s gs).map Prod.fst
        = if (alLookup g gs).isSome then gs.map Prod.fst
          else gs.map Prod.fst ++ [g] := by
  intro gs
  induction gs with
  | nil => simp [pushScore, alLookup]
  | cons kv rest ih =>
    obtain ⟨k, v⟩ := kv
    by_cases hk : k = g
    · subst hk
      simp [pushScore, alLookup]
    · simp only [pushScore, if_neg hk, List.map_cons, alLookup, ih]
      by_cases hsome : (alLookup g rest).isSome
      · simp [hsome]
      · simp [hsome]

theorem keys_nodup_append_singleton (l : List String) (g : String)
    (hnd : l.Nodup) (hg : g ∉ l) : (l ++ [g]).Nodup := by
  simp [List.nodup_append, hnd, hg]

theorem keys_nodup_pushScore (g : String) (s : Int)
    (gs : List (String × List Int)) (h : (gs.map Prod.fst).Nodup) :
    ((pushScore g s gs).map Prod.fst).Nodup := by
  rw [pushScore_keys]
  by_cases hsome : (alLookup g gs).isSome
  · simp [hsome, h]
  · have hg : g ∉ gs.map Prod.fst := by
      intro hmem
      exact hsome ((alLookup_isSome_iff g gs).mpr hmem)
    simp only [hsome, if_false, Bool.false_eq_true]
    exact keys_nodup_append_singleton _ _ h hg

theorem keys_nodup_ensureKey (g : String) (gs : List (String × List Int))
    (h : (gs.map Prod.fst).Nodup) : ((ensureKey g gs).map Prod.fst).Nodup := by
  unfold ensureKey
  by_cases hsome : (alLookup g gs).isSome
  · simp [hsome, h]
  · have hg : g ∉ gs.map Prod.fst := by
      intro hmem
      exact hsome ((alLookup_isSome_iff g gs).mpr hmem)
    simp only [hsome, if_false, Bool.false_eq_true, List.map_append]
    exact keys_nodup_append_singleton _ _ h hg

theorem keys_nodup_foldl_pushScore (g : String) (f : β → Int) (xs : List β) :
    ∀ gs : List (String × List Int), (gs.map Prod.fst).Nodup →
      ((xs.foldl (fun acc x => pushScore g (f x) acc) gs).map Prod.fst).Nodup := by
  induction xs with
  | nil => intro gs h; exact h
  | cons x xs ih =>
    intro gs h
    exact ih _ (keys_nodup_pushScore g (f x) gs h)

theorem collectGameScores_keys_nodup (sessions : List GameSession) :
    ((collectGameScores sessions).map Prod.fst).Nodup := by
  have main : ∀ (l : List GameSession) (gs : List (String × List Int)),
      (gs.map Prod.fst).Nodup →
      ((l.foldl sessionScoresStep gs).map Prod.fst).Nodup := by
    intro l
    induction l with
    | nil => intro gs h; exact h
    | cons sess l ih =>
      intro gs h
      refine ih _ ?_
      unfold sessionScoresStep
      exact keys_nodup_foldl_pushScore _ _ _ _
        (keys_nodup_foldl_pushScore _ _ _ _ (keys_nodup_ensureKey _ _ h))
  exact main sessions [] (by simp)

theorem collectTeamGameScores_keys_nodup (sessions : List GameSession) :
    ((collectTeamGameScores sessions).map Prod.fst).Nodup := by
  have main : ∀ (l : List GameSession) (gs : List (String × List Int)),
      (gs.map Prod.fst).Nodup →
      ((l.foldl teamScoresStep gs).map Prod.fst).Nodup := by
    intro l
    induction l with
    | nil => intro gs h; exact h
    | cons sess l ih =>
      intro gs h
      refine ih _ ?_
      unfold teamScoresStep
      exact keys_nodup_foldl_pushScore _ _ _ _ (keys_nodup_ensureKey _ _ h)
  exact main sessions [] (by simp)

/-! ## Claim C2 -/

/-- C2: For every game-name bucket collected by the normalization engine
whose pooled scores satisfy `max ≠ min`, every normalized value
`(raw_score - min) / range` of a pooled score lies in the closed interval
`[0, 1]`; a score equal to the bucket max normalizes to exactly `1` and a
score equal to the bucket min normalizes to exactly `0`. -/
theorem c2_normalized_scores_in_unit_interval (sessions : List GameSession)
    (g : String) (scores : List Int) (n : Normalization) (s : Int)
    (hs : alLookup g (collectGameScores sessions) = some scores)
    (hn : alLookup g (mkNormalizations (collectGameScores sessions)) = some n)
    (hmem : s ∈ scores) (hne : n.max ≠ n.min) :
    0 ≤ normalizeScore n s ∧ normalizeScore n s ≤ 1
      ∧ (s = n.max → normalizeScore n s = 1)
      ∧ (s = n.min → normalizeScore n s = 0) := by
  obtain ⟨scores', hs', hnorm⟩ :=
    alLookup_mkNormalizations_of_nodup g n _ (collectGameScores_keys_nodup sessions) hn
  rw [hs] at hs'
  injection hs' with hs'
  subst hs'
  obtain ⟨hbounds, hmin_mem, hmax_mem, hrange⟩ := mkNormOf_spec _ _ hnorm
  have hsb := hbounds s hmem
  have hrange' : n.range = n.max - n.min := by rw [hrange, if_pos hne]
  have hlt : n.min < n.max :=
    lt_of_le_of_ne (le_trans hsb.1 hsb.2) (fun h => hne h.symm)
  have hltQ : (n.min : ℚ) < (n.max : ℚ) := by exact_mod_cast hlt
  have h1Q : (n.min : ℚ) ≤ (s : ℚ) := by exact_mod_cast hsb.1
  have h2Q : (s : ℚ) ≤ (n.max : ℚ) := by exact_mod_cast hsb.2
  have hpos : (0 : ℚ) < (n.range : ℚ) := by
    rw [hrange']
    push_cast
    linarith
  refine ⟨?_, ?_, ?_, ?_⟩
  · apply div_nonneg _ (le_of_lt hpos)
    linarith
  · rw [normalizeScore, div_le_one hpos, hrange']
    push_cast
    linarith
  · intro h
    subst h
    rw [normalizeScore, hrange']
    have hne' : ((n.max : ℚ) - (n.min : ℚ)) ≠ 0 := by
      intro hc
      linarith
    push_cast
    rw [div_self hne']
  · intro h
    subst h
    simp [normalizeScore]

/-- Concrete sessions for the C2 witness: one Chess session with individual
scores 0, 10 and 7, giving bucket `[0, 10, 7]`, min 0, max 10, range 10. -/
def c2sessions : List GameSession :=
  [{ id := "s1", group_id := "g", game_name := "Chess", game_date := 0,
     player_scores := [⟨"p1", "P", 0⟩, ⟨"p2", "Q", 10⟩, ⟨"p3", "R", 7⟩],
     team_scores := [], created_date := 0 }]

/-- Concrete witness for C2 at score 7 of bucket `[0, 10, 7]`. -/
theorem c2_normalized_scores_in_unit_interval_witness :
    0 ≤ normalizeScore ⟨0, 10, 10⟩ 7 ∧ normalizeScore ⟨0, 10, 10⟩ 7 ≤ 1
      ∧ ((7 : Int) = (Normalization.mk 0 10 10).max → normalizeScore ⟨0, 10, 10⟩ 7 = 1)
      ∧ ((7 : Int) = (Normalization.mk 0 10 10).min → normalizeScore ⟨0, 10, 10⟩ 7 = 0) :=
  c2_normalized_scores_in_unit_interval c2sessions "Chess" [0, 10, 7] ⟨0, 10, 10⟩ 7
    (by decide) (by decide) (by decide) (by decide)

/-! ## Claim C8 -/

/-- Shared degenerate-bucket fact: if a bucket's recorded scores are all
equal, the normalization record built by `mkNormalizations` has `range = 1`
and every score of the bucket normalizes to exactly `0`. -/
theorem degenerate_bucket_of_nodup (gs : List (String × List Int))
    (hnd : (gs.map Prod.fst).Nodup) (g : String) (scores : List Int)
    (n : Normalization) (v s : Int)
    (hs : alLookup g gs = some scores)
    (hn : alLookup g (mkNormalizations gs) = some n)
    (hall : ∀ x ∈ scores, x = v) (hmem : s ∈ scores) :
    n.range = 1 ∧ normalizeScore n s = 0 := by
  obtain ⟨scores', hs', hnorm⟩ := alLookup_mkNormalizations_of_nodup g n gs hnd hn
  rw [hs] at hs'
  injection hs' with hs'
  subst hs'
  obtain ⟨hbounds, hmin_mem, hmax_mem, hrange⟩ := mkNormOf_spec _ _ hnorm
  have hminv : n.min = v := hall _ hmin_mem
  have hmaxv : n.max = v := hall _ hmax_mem
  have hsv : s = v := hall _ hmem
  have hr1 : n.range = 1 := by
    rw [hrange, hminv, hmaxv]
    simp
  refine ⟨hr1, ?_⟩
  rw [normalizeScore, hr1, hminv, hsv]
  simp

/-- C8: For every game-name bucket in which all pooled scores are equal
(including a single-score bucket), the engine uses `range = 1` and every
score of that bucket normalizes to exactly `0` — both in
`calculate_normalized_scores` (buckets from `collectGameScores`) and in
`get_team_leaderboard` (buckets from `collectTeamGameScores`). -/
theorem c8_degenerate_bucket_normalizes_to_zero (sessions : List GameSession)
    (g : String) (v : Int) :
    (∀ scores n s,
        alLookup g (collectGameScores sessions) = some scores →
        alLookup g (mkNormalizations (collectGameScores sessions)) = some n →
        (∀ x ∈ scores, x = v) → s ∈ scores →
        n.range = 1 ∧ normalizeScore n s = 0)
      ∧ (∀ scores n s,
        alLookup g (collectTeamGameScores sessions) = some scores →
        alLookup g (mkNormalizations (collectTeamGameScores sessions)) = some n →
        (∀ x ∈ scores, x = v) → s ∈ scores →
        n.range = 1 ∧ normalizeScore n s = 0) := by
  constructor
  · intro scores n s hs hn hall hmem
    exact degenerate_bucket_of_nodup _ (collectGameScores_keys_nodup sessions)
      g scores n v s hs hn hall hmem
  · intro scores n s hs hn hall hmem
    exact degenerate_bucket_of_nodup _ (collectTeamGameScores_keys_nodup sessions)
      g scores n v s hs hn hall hmem

/-- Concrete sessions for the C8 witness: one session whose only scores are
an individual 5 and a team 5 in game "Go", so both engines see a degenerate
bucket. -/
def c8sessions : List GameSession :=
  [{ id := "s1", group_id := "g", game_name := "Go", game_date := 0,
     player_scores := [⟨"p1", "P", 5⟩],
     team_scores := [⟨"t1", "T", 5, ["p1"]⟩], created_date := 0 }]

/-- Concrete witness for C8 on both normalization paths. -/
theorem c8_degenerate_bucket_normalizes_to_zero_witness :
    ((Normalization.mk 5 5 1).range = 1 ∧ normalizeScore ⟨5, 5, 1⟩ 5 = 0)
      ∧ ((Normalization.mk 5 5 1).range = 1 ∧ normalizeScore ⟨5, 5, 1⟩ 5 = 0) :=
  ⟨(c8_degenerate_bucket_normalizes_to_zero c8sessions "Go" 5).1 [5, 5] ⟨5, 5, 1⟩ 5
      (by decide) (by decide) (by decide) (by decide),
    (c8_degenerate_bucket_normalizes_to_zero c8sessions "Go" 5).2 [5] ⟨5, 5, 1⟩ 5
      (by decide) (by decide) (by decide) (by decide)⟩

/-! ## Claim C4 -/

theorem leadMatch_refl : ∀ l : List Char, leadMatch l l = true := by
  intro l
  induction l with
  | nil => rfl
  | cons a l ih => simp [leadMatch, ih]

theorem subMatch_refl : ∀ l : List Char, subMatch l l = true := by
  intro l
  cases l with
  | nil => rfl
  | cons b ns =>
    rw [subMatch, leadMatch_refl]
    simp

theorem regexMatchI_refl (p : String) : regexMatchI p p = true := by
  rw [regexMatchI, subMatch_refl]

/-- Session used to refute C4's exact-match claim: its stored game name
"chess boxing" is neither equal to nor a case-exact match of the filter
string "Chess", yet the `$regex`/`i` filter selects it. -/
def c4sess : GameSession :=
  { id := "s1", group_id := "g", game_name := "chess boxing", game_date := 0,
    player_scores := [], team_scores := [], created_date := 0 }

/-- C4 counterexample: with filter string "Chess", the session named
"chess boxing" is selected by the candidate-session filter even though its
game name differs from the filter string (case and extra text), refuting the
exact, case-sensitive, whitespace-sensitive comparison claim. -/
theorem c4_exact_match_counterexample :
    filterMatches (buildSessionFilter "g" (some "Chess") none none) c4sess = true
      ∧ c4sess.game_name ≠ "Chess" := by
  constructor
  · decide
  · decide

/-- C4 amended: when a non-empty `game_name` filter is supplied, the
candidate filter tests the stored game name with Mongo
`{"$regex": filter, "$options": "i"}` — for a literal filter string,
case-insensitive substring containment — rather than exact equality; exact
equality remains sufficient for selection. -/
theorem c4_game_name_filter_amended (gid p : String) (s : GameSession)
    (hp : p ≠ "") (hg : s.group_id = gid) :
    filterMatches (buildSessionFilter gid (some p) none none) s
        = regexMatchI p s.game_name
      ∧ (s.game_name = p →
          filterMatches (buildSessionFilter gid (some p) none none) s = true) := by
  have hmain :
      filterMatches (buildSessionFilter gid (some p) none none) s
        = regexMatchI p s.game_name := by
    simp [filterMatches, buildSessionFilter, buildDateCond, dateMatches, hp, hg]
  refine ⟨hmain, ?_⟩
  intro hname
  rw [hmain, hname]
  exact regexMatchI_refl p

/-- Concrete witness for C4's amended claim, on a session whose stored name
equals the filter string exactly. -/
theorem c4_game_name_filter_amended_witness :
    filterMatches (buildSessionFilter "g" (some "Chess") none none)
        (GameSession.mk "s2" "g" "Chess" 0 [] [] 0)
        = regexMatchI "Chess" "Chess"
      ∧ ((GameSession.mk "s2" "g" "Chess" 0 [] [] 0).game_name = "Chess" →
          filterMatches (buildSessionFilter "g" (some "Chess") none none)
            (GameSession.mk "s2" "g" "Chess" 0 [] [] 0) = true) :=
  c4_game_name_filter_amended "g" "Chess" (GameSession.mk "s2" "g" "Chess" 0 [] [] 0)
    (by decide) (by decide)

/-! ## Claim C5 -/

/-- Session used to refute C5: an individual score 0 and a team score 10 in
the same bucket.  The player-leaderboard pool is `[0, 10]`
(min 0, max 10, range 10); the team-leaderboard pool is `[10]`
(min 10, max 10, range 1). -/
def c5sess : GameSession :=
  { id := "s", group_id := "g", game_name := "Go", game_date := 0,
    player_scores := [⟨"p", "P", 0⟩],
    team_scores := [⟨"t", "T", 10, ["p"]⟩], created_date := 0 }

/-- C5 counterexample: on `c5sess` the per-bucket normalization record used
by the player path differs from the one used by the team leaderboard, so the
two embedded bucket computations are not equal functions of the session
set. -/
theorem c5_bucket_pools_differ_counterexample :
    alLookup "Go" (mkNormalizations (collectGameScores [c5sess]))
      ≠ alLookup "Go" (mkNormalizations (collectTeamGameScores [c5sess])) := by
  decide

theorem collect_eq_of_no_player_scores :
    ∀ (l : List GameSession) (gs : List (String × List Int)),
      (∀ s ∈ l, s.player_scores = []) →
      l.foldl sessionScoresStep gs = l.foldl teamScoresStep gs := by
  intro l
  induction l with
  | nil => intro gs _; rfl
  | cons sess l ih =>
    intro gs h
    have hsess : sess.player_scores = [] := h sess (by simp)
    have hstep : sessionScoresStep gs sess = teamScoresStep gs sess := by
      rw [sessionScoresStep, teamScoresStep, hsess]
      rfl
    show List.foldl sessionScoresStep (sessionScoresStep gs sess) l = _
    rw [hstep]
    exact ih _ (fun s hs => h s (by simp [hs]))

/-- C5 amended: the player path pools every individual player score *and*
every team score per bucket, while `get_team_leaderboard` pools only team
scores, so the two bucket computations differ in general (counterexample on
a session carrying both kinds of score); they coincide exactly on session
sets in which no session carries an individual player score. -/
theorem c5_buckets_agree_without_player_scores_amended
    (sessions : List GameSession)
    (h : ∀ s ∈ sessions, s.player_scores = []) :
    mkNormalizations (collectGameScores sessions)
      = mkNormalizations (collectTeamGameScores sessions) := by
  rw [collectGameScores, collectTeamGameScores,
    collect_eq_of_no_player_scores sessions [] h]

/-- Concrete witness for C5's amended claim on a team-only session set. -/
theorem c5_buckets_agree_without_player_scores_amended_witness :
    (∀ s ∈ [GameSession.mk "s" "g" "Go" 0 [] [⟨"t", "T", 10, ["p"]⟩] 0],
        s.player_scores = [])
      ∧ mkNormalizations (collectGameScores
            [GameSession.mk "s" "g" "Go" 0 [] [⟨"t", "T", 10, ["p"]⟩] 0])
          = mkNormalizations (collectTeamGameScores
              [GameSession.mk "s" "g" "Go" 0 [] [⟨"t", "T", 10, ["p"]⟩] 0]) :=
  ⟨by decide,
    c5_buckets_agree_without_player_scores_amended
      [GameSession.mk "s" "g" "Go" 0 [] [⟨"t", "T", 10, ["p"]⟩] 0] (by decide)⟩

/-! ## Claim C10 -/

/-- C10: When a (truthy) month filter is supplied without a year, the date
condition placed on `game_date` is the empty document, which matches no
stored session's datetime, so the candidate session set and the returned
player mapping and leaderboard are all empty, for every group state. -/
theorem c10_month_without_year_selects_nothing (db : DB) (gid : String)
    (gname : Option String) (m : Int) (hm : m ≠ 0) :
    db.sessions.filter (filterMatches (buildSessionFilter gid gname none (some m))) = []
      ∧ calculate_normalized_scores db.players db.sessions gid gname none (some m) = []
      ∧ get_player_leaderboard db gid gname none (some m) = [] := by
  have hdc : buildDateCond none (some m) = DateCond.emptyDoc := by
    simp [buildDateCond, hm]
  have hmatch : ∀ s, filterMatches (buildSessionFilter gid gname none (some m)) s
      = false := by
    intro s
    simp [filterMatches, buildSessionFilter, hdc, dateMatches]
  have hfilter :
      db.sessions.filter (filterMatches (buildSessionFilter gid gname none (some m)))
        = [] := by
    rw [List.filter_eq_nil_iff]
    intro a _
    simp [hmatch a]
  have hcalc :
      calculate_normalized_scores db.players db.sessions gid gname none (some m)
        = [] := by
    rw [calculate_normalized_scores]
    simp only [hfilter]
    rfl
  refine ⟨hfilter, hcalc, ?_⟩
  rw [get_player_leaderboard]
  simp only [hcalc]
  rfl

/-- Concrete witness for C10: a group with one stored session still yields
an empty selection, mapping and leaderboard under a month-only filter. -/
theorem c10_month_without_year_selects_nothing_witness :
    ((DB.mk [] [] [GameSession.mk "s" "g" "Go" 5 [⟨"p", "P", 3⟩] [] 0]).sessions.filter
        (filterMatches (buildSessionFilter "g" none none (some 5))) = []
      ∧ calculate_normalized_scores
          (DB.mk [] [] [GameSession.mk "s" "g" "Go" 5 [⟨"p", "P", 3⟩] [] 0]).players
          (DB.mk [] [] [GameSession.mk "s" "g" "Go" 5 [⟨"p", "P", 3⟩] [] 0]).sessions
          "g" none none (some 5) = []
      ∧ get_player_leaderboard
          (DB.mk [] [] [GameSession.mk "s" "g" "Go" 5 [⟨"p", "P", 3⟩] [] 0])
          "g" none none (some 5) = []) :=
  c10_month_without_year_selects_nothing
    (DB.mk [] [] [GameSession.mk "s" "g" "Go" 5 [⟨"p", "P", 3⟩] [] 0])
    "g" none 5 (by decide)

/-! ## Claim C9 -/

/-- C9: For every leaderboard or stats entry with `games_played = 0`, the
computed average is exactly `0` — the division `total / games_played` is
evaluated only under the guard `games_played > 0`, in the normalized
leaderboard average (`avgNormalizedOf`, server.py line 558, and the entry
built from it) and in the `get_group_stats` top-player average
(`topPlayerAvg`, server.py line 676, and the entry built from it). -/
theorem c9_zero_games_zero_average (stats : PStat) (d : Player) (pid : String)
    (h1 : stats.games_played = 0) (h2 : d.games_played = 0) :
    avgNormalizedOf stats = 0
      ∧ (entryOfStats pid stats).average_score = 0
      ∧ topPlayerAvg d = 0
      ∧ (topPlayerEntry d).average_score = 0 := by
  have ha : avgNormalizedOf stats = 0 := by simp [avgNormalizedOf, h1]
  have hb : topPlayerAvg d = 0 := by simp [topPlayerAvg, h2]
  have hz : roundHalfEven 0 = 0 := by rw [roundHalfEven]; norm_num
  have hz3 : round_py 0 3 = 0 := by rw [round_py]; norm_num [hz]
  have hz2 : round_py 0 2 = 0 := by rw [round_py]; norm_num [hz]
  refine ⟨ha, ?_, hb, ?_⟩
  · rw [entryOfStats]
    simp only [ha]
    exact hz3
  · rw [topPlayerEntry]
    simp only [hb]
    exact hz2

/-- Concrete witness for C9 on a zero-games accumulator record and a
zero-games player document. -/
theorem c9_zero_games_zero_average_witness :
    avgNormalizedOf ⟨"P", 0, 0, 0⟩ = 0
      ∧ (entryOfStats "p" ⟨"P", 0, 0, 0⟩).average_score = 0
      ∧ topPlayerAvg ⟨"p", "P", "g", "e", 5, 0, 0⟩ = 0
      ∧ (topPlayerEntry ⟨"p", "P", "g", "e", 5, 0, 0⟩).average_score = 0 :=
  c9_zero_games_zero_average ⟨"P", 0, 0, 0⟩ ⟨"p", "P", "g", "e", 5, 0, 0⟩ "p"
    (by decide) (by decide)

/-! ## Claim C6 -/

theorem list_sum_map_const_int (l : List β) (c : Int) :
    (l.map (fun _ => c)).sum = (l.length : Int) * c := by
  induction l with
  | nil => simp
  | cons x l ih =>
    simp only [List.map_cons, List.sum_cons, ih, List.length_cons]
    push_cast
    ring

theorem list_sum_map_const_rat (l : List β) (c : ℚ) :
    (l.map (fun _ => c)).sum = (l.length : ℚ) * c := by
  induction l with
  | nil => simp
  | cons x l ih =>
    simp only [List.map_cons, List.sum_cons, ih, List.length_cons]
    push_cast
    ring

/-- C6: For every team score `S` distributed to a team-score entry with
`N > 0` member ids, the per-player raw ledger increments issued by
`create_session` (the `teamIncs` list, which implements
`distributeTeamScore`) sum to `N * (S fdiv N) ≤ S`, the shortfall
`S mod N` never being credited; if the member list is empty the
distribution step is skipped entirely; and the normalized per-member share
`ns / N` of `calculate_normalized_scores` is exact, the `N` shares summing
to exactly the team's normalized score `ns`. -/
theorem c6_team_distribution_arithmetic (ts : TeamScore) (led : List Player) (ns : ℚ) :
    (ts.player_ids ≠ [] →
      ((teamIncs ts).map (fun e => e.2.1)).sum
          = (ts.player_ids.length : Int) * Int.fdiv ts.score (ts.player_ids.length : Int)
        ∧ (ts.player_ids.length : Int) * Int.fdiv ts.score (ts.player_ids.length : Int)
            ≤ ts.score
        ∧ (ts.player_ids.map (fun _ => ns / (ts.player_ids.length : ℚ))).sum = ns
        ∧ distributeTeamScore ts led = applyIncsP (teamIncs ts) led)
      ∧ (ts.player_ids = [] → distributeTeamScore ts led = led) := by
  constructor
  · intro h
    have hlen : ts.player_ids.length ≠ 0 := by
      intro hc
      exact h (List.length_eq_zero.mp hc)
    have hNpos : (0 : Int) < (ts.player_ids.length : Int) := by
      exact_mod_cast Nat.pos_of_ne_zero hlen
    refine ⟨?_, ?_, ?_, distributeTeamScore_eq ts led⟩
    · rw [teamIncs, if_pos h, List.map_map]
      exact list_sum_map_const_int ts.player_ids _
    · have hfd : Int.fdiv ts.score (ts.player_ids.length : Int)
          = ts.score / (ts.player_ids.length : Int) :=
        Int.fdiv_eq_ediv ts.score (le_of_lt hNpos)
      have h1 := Int.ediv_add_emod ts.score (ts.player_ids.length : Int)
      have h2 := Int.emod_nonneg ts.score (ne_of_gt hNpos)
      rw [hfd]
      linarith
    · rw [list_sum_map_const_rat]
      have hQ : (ts.player_ids.length : ℚ) ≠ 0 := by
        exact_mod_cast hlen
      rw [← mul_div_assoc]
      exact mul_div_cancel_left₀ ns hQ
  · intro h
    simp [distributeTeamScore, h]

/-- Concrete team scores for the C6 witness. -/
def c6ts : TeamScore := ⟨"t", "T", 7, ["a", "b"]⟩

def c6ts0 : TeamScore := ⟨"t0", "T0", 7, []⟩

/-- Concrete witness for C6: score 7 over two members gives floor shares of
3 summing to 6 ≤ 7, exact normalized half-shares summing back to the whole,
and the zero-member entry skips distribution. -/
theorem c6_team_distribution_arithmetic_witness :
    (((teamIncs c6ts).map (fun e => e.2.1)).sum
          = (c6ts.player_ids.length : Int) * Int.fdiv c6ts.score (c6ts.player_ids.length : Int)
        ∧ (c6ts.player_ids.length : Int) * Int.fdiv c6ts.score (c6ts.player_ids.length : Int)
            ≤ c6ts.score
        ∧ (c6ts.player_ids.map (fun _ => (1 : ℚ) / (c6ts.player_ids.length : ℚ))).sum = 1
        ∧ distributeTeamScore c6ts [] = applyIncsP (teamIncs c6ts) [])
      ∧ distributeTeamScore c6ts0 [] = [] :=
  ⟨(c6_team_distribution_arithmetic c6ts [] 1).1 (by decide),
    (c6_team_distribution_arithmetic c6ts0 [] 1).2 (by decide)⟩

/-! ## Claim C3 -/

/-- Group state refuting C3: ledger totals X = 1000 over 2 games,
Y = 2 over 3 games; normalized totals X = 1.0, Y = 2.0 (game "A" pools
`[0, 1, 1]`, game "B" pools `[1000, 0]`). -/
def c3db : DB :=
  { players := [⟨"pX", "X", "g", "e", 1000, 2, 0⟩, ⟨"pY", "Y", "g", "e", 2, 3, 0⟩],
    teams := [],
    sessions :=
      [⟨"s1", "g", "A", 0, [⟨"pX", "X", 0⟩, ⟨"pY", "Y", 1⟩], [], 0⟩,
       ⟨"s2", "g", "A", 0, [⟨"pY", "Y", 1⟩], [], 0⟩,
       ⟨"s3", "g", "B", 0, [⟨"pX", "X", 1000⟩, ⟨"pY", "Y", 0⟩], [], 0⟩] }

set_option maxHeartbeats 1000000 in
/-- C3 counterexample: on `c3db`, `get_group_stats` reports top player X
(raw ledger convention, total 1000), while the unfiltered player leaderboard
ranks Y first (normalized convention, total 2.0 vs 1.0) — the two call
paths do not use the same scoring convention. -/
theorem c3_top_player_convention_counterexample :
    (get_group_stats c3db "g").top_player
      ≠ (get_player_leaderboard c3db "g" none none none).head? := by
  norm_num +decide [get_group_stats, get_player_leaderboard, calculate_normalized_scores,
    buildSessionFilter, buildDateCond, filterMatches, dateMatches, collectGameScores,
    sessionScoresStep, ensureKey, pushScore, alLookup, mkNormalizations, mkNormOf,
    processSession, addToStats, dictSet, statsInit, normalizeScore, playerNameOf,
    entryOfStats, avgNormalizedOf, round_py, roundHalfEven, pyInt, insertDesc, sortDesc,
    topPlayerDoc, topPlayerEntry, topPlayerAvg, most_played_of, pushCount, c3db,
    List.filter, List.foldl, List.filterMap, List.find?]

theorem topPlayerDoc_fold_spec (rest : List Player) :
    ∀ a : Player,
      (rest.foldl (fun best d => if d.total_score > best.total_score then d else best) a)
          ∈ a :: rest
        ∧ a.total_score ≤
            (rest.foldl (fun best d =>
              if d.total_score > best.total_score then d else best) a).total_score
        ∧ ∀ x ∈ rest, x.total_score ≤
            (rest.foldl (fun best d =>
              if d.total_score > best.total_score then d else best) a).total_score := by
  induction rest with
  | nil =>
    intro a
    exact ⟨by simp, le_refl _, by simp⟩
  | cons b rest ih =>
    intro a
    obtain ⟨hmem, hle, hall⟩ := ih (if b.total_score > a.total_score then b else a)
    have hac : a.total_score ≤ (if b.total_score > a.total_score then b else a).total_score := by
      by_cases hba : b.total_score > a.total_score
      · rw [if_pos hba]; exact le_of_lt hba
      · rw [if_neg hba]
    have hbc : b.total_score ≤ (if b.total_score > a.total_score then b else a).total_score := by
      by_cases hba : b.total_score > a.total_score
      · rw [if_pos hba]
      · rw [if_neg hba]; exact le_of_not_lt hba
    refine ⟨?_, le_trans hac hle, ?_⟩
    · show (rest.foldl (fun best d => if d.total_score > best.total_score then d else best)
          (if b.total_score > a.total_score then b else a)) ∈ a :: b :: rest
      rw [List.mem_cons] at hmem
      rcases hmem with hmem | hmem
      · rw [hmem]
        by_cases hba : b.total_score > a.total_score
        · rw [if_pos hba]; simp
        · rw [if_neg hba]; simp
      · simp [hmem]
    · intro x hx
      rw [List.mem_cons] at hx
      rcases hx with rfl | hx
      · exact le_trans hbc hle
      · exact hall x hx

/-- What Mongo's `find_one(..., sort=[("total_score", -1)])` promises: the
returned document belongs to the collection and has maximal
`total_score`. -/
theorem topPlayerDoc_spec (l : List Player) (d : Player) (h : topPlayerDoc l = some d) :
    d ∈ l ∧ ∀ x ∈ l, x.total_score ≤ d.total_score := by
  cases l with
  | nil => cases h
  | cons a rest =>
    rw [topPlayerDoc] at h
    injection h with h
    obtain ⟨hmem, hle, hall⟩ := topPlayerDoc_fold_spec rest a
    rw [h] at hmem hle hall
    refine ⟨hmem, ?_⟩
    intro x hx
    rw [List.mem_cons] at hx
    rcases hx with rfl | hx
    · exact hle
    · exact hall x hx

/-- C3 amended: the `top_player` of `get_group_stats` is an entry built from
a group player document of maximal raw ledger `total_score` (the raw
convention), while the first entry of the player leaderboard is ranked by
normalized score — a different convention, so the two can disagree
(see the counterexample). -/
theorem c3_top_player_is_raw_max_amended (db : DB) (gid : String)
    (e : LeaderboardEntry)
    (h : (get_group_stats db gid).top_player = some e) :
    ∃ d ∈ db.players.filter (fun d => d.group_id == gid),
      e = topPlayerEntry d
        ∧ ∀ d' ∈ db.players.filter (fun d => d.group_id == gid),
            d'.total_score ≤ d.total_score := by
  rw [get_group_stats] at h
  simp only [Option.map_eq_some'] at h
  obtain ⟨d, hd, he⟩ := h
  obtain ⟨hmem, hmax⟩ := topPlayerDoc_spec _ d hd
  exact ⟨d, hmem, he.symm, hmax⟩

/-- Concrete witness for C3's amended claim on a one-player group. -/
theorem c3_top_player_is_raw_max_amended_witness :
    ∃ d ∈ (DB.mk [⟨"p", "P", "g", "e", 5, 1, 0⟩] [] []).players.filter
        (fun d => d.group_id == "g"),
      topPlayerEntry ⟨"p", "P", "g", "e", 5, 1, 0⟩ = topPlayerEntry d
        ∧ ∀ d' ∈ (DB.mk [⟨"p", "P", "g", "e", 5, 1, 0⟩] [] []).players.filter
            (fun d => d.group_id == "g"),
            d'.total_score ≤ d.total_score :=
  c3_top_player_is_raw_max_amended (DB.mk [⟨"p", "P", "g", "e", 5, 1, 0⟩] [] []) "g"
    (topPlayerEntry ⟨"p", "P", "g", "e", 5, 1, 0⟩) rfl

/-! ## Claim C7: public operations and reachability

The remaining mutating endpoints, modelled after validation: the handlers'
uniqueness and group-existence checks only gate errors and are dropped
(dropping them only enlarges the reachable state set, which makes the
positive invariant below stronger).  Server-generated ids are `uuid4`
values, modelled by the freshness guard `¬ idUsed`. -/

/-- `create_player` (server.py lines 168-191): a fresh document with zero
totals is appended. -/
def create_player (id player_name group_id emoji : String) (created_date : ℚ)
    (db : DB) : DB :=
  { db with players := db.players ++ [⟨id, player_name, group_id, emoji, 0, 0, created_date⟩] }

/-- `update_player` (server.py lines 203-235): `$set` of name and emoji on
the first matching document. -/
def update_player (player_id player_name emoji : String) (db : DB) : DB :=
  let setFields := fun (d : Player) =>
    { d with player_name := player_name, emoji := emoji }
  { db with players := updateFirst (fun d => d.id = player_id) setFields db.players }

/-- `delete_player` (server.py lines 237-262): `$pull` the id from every
team's member list, `$pull` the player's entries from every session's
`player_scores` (the `team_scores` snapshots are *not* touched), then
delete the first matching player document. -/
def delete_player (player_id : String) (db : DB) : DB :=
  let pullTeam := fun (t : Team) =>
    { t with player_ids := t.player_ids.filter (fun pid => pid ≠ player_id) }
  let pullSession := fun (s : GameSession) =>
    { s with player_scores := s.player_scores.filter (fun e => e.player_id ≠ player_id) }
  { players := db.players.eraseP (fun d => d.id = player_id),
    teams := db.teams.map pullTeam,
    sessions := db.sessions.map pullSession }

/-- `create_team` (server.py lines 265-295): a fresh document with zero
totals is appended. -/
def create_team (id team_name group_id : String) (player_ids : List String)
    (created_date : ℚ) (db : DB) : DB :=
  { db with teams := db.teams ++ [⟨id, team_name, group_id, player_ids, 0, 0, created_date⟩] }

/-- `import_group_data` (server.py lines 916-999): the group's players,
teams and sessions are deleted, then the uploaded documents are inserted
verbatim — `total_score` and `games_played` are copied from the file with
no validation — with `group_id` forced to the target group. -/
def import_group_data (group_id : String) (ps : List Player) (tl : List Team)
    (sl : List GameSession) (db : DB) : DB :=
  let players' := db.players.filter (fun d => ¬ d.group_id = group_id)
    ++ ps.map (fun d => { d with group_id := group_id })
  let teams' := db.teams.filter (fun t => ¬ t.group_id = group_id)
    ++ tl.map (fun t => { t with group_id := group_id })
  let sessions' := db.sessions.filter (fun s => ¬ s.group_id = group_id)
    ++ sl.map (fun s => { s with group_id := group_id })
  { players := players', teams := teams', sessions := sessions' }

/-- `id` occurs somewhere in the database: as a document id or inside any
stored reference.  A fresh `uuid4` satisfies `¬ idUsed`. -/
def idUsed (db : DB) (id : String) : Prop :=
  (∃ d ∈ db.players, d.id = id)
    ∨ (∃ t ∈ db.teams, t.id = id ∨ id ∈ t.player_ids)
    ∨ (∃ s ∈ db.sessions,
        s.id = id ∨ (∃ e ∈ s.player_scores, e.player_id = id)
          ∨ (∃ ts ∈ s.team_scores, ts.team_id = id ∨ id ∈ ts.player_ids))

/-- One public mutating operation.  `allowImport` switches the import
endpoint on or off. -/
inductive Step (allowImport : Bool) : DB → DB → Prop
  | createPlayer (db : DB) (id player_name group_id emoji : String)
      (created_date : ℚ) (hfresh : ¬ idUsed db id) :
      Step allowImport db (create_player id player_name group_id emoji created_date db)
  | updatePlayer (db : DB) (player_id player_name emoji : String) :
      Step allowImport db (update_player player_id player_name emoji db)
  | deletePlayer (db : DB) (player_id : String) :
      Step allowImport db (delete_player player_id db)
  | createTeam (db : DB) (id team_name group_id : String)
      (player_ids : List String) (created_date : ℚ) (hfresh : ¬ idUsed db id) :
      Step allowImport db (create_team id team_name group_id player_ids created_date db)
  | createSession (db : DB) (sess : GameSession) :
      Step allowImport db (create_game_session sess db)
  | deleteSession (db : DB) (session_id : String) (db' : DB)
      (h : delete_game_session session_id db = some db') :
      Step allowImport db db'
  | importData (db : DB) (group_id : String) (ps : List Player) (tl : List Team)
      (sl : List GameSession) (h : allowImport = true) :
      Step allowImport db (import_group_data group_id ps tl sl db)

/-- The empty deployment state. -/
def db0 : DB := ⟨[], [], []⟩

def Reachable (allowImport : Bool) (db db' : DB) : Prop :=
  Relation.ReflTransGen (Step allowImport) db db'

/-- References to player `pid` inside one session: one per `player_scores`
entry and one per occurrence in a team-score `player_ids` snapshot —
exactly the `games_played` increments `update_player_team_stats` issues for
`pid`, and the decrements `delete_game_session` issues. -/
def refP_session (sess : GameSession) (pid : String) : Int :=
  (sess.player_scores.countP (fun e => e.player_id = pid) : Int)
    + (sess.team_scores.map
        (fun ts => (ts.player_ids.countP (fun x => x = pid) : Int))).sum

def refP (sessions : List GameSession) (pid : String) : Int :=
  (sessions.map (fun s => refP_session s pid)).sum

def refT_session (sess : GameSession) (tid : String) : Int :=
  (sess.team_scores.countP (fun ts => ts.team_id = tid) : Int)

def refT (sessions : List GameSession) (tid : String) : Int :=
  (sessions.map (fun s => refT_session s tid)).sum

theorem refP_session_nonneg (sess : GameSession) (pid : String) :
    0 ≤ refP_session sess pid := by
  rw [refP_session]
  have h1 : (0 : Int) ≤ (sess.player_scores.countP (fun e => e.player_id = pid) : Int) := by
    positivity
  have h2 : (0 : Int) ≤ (sess.team_scores.map
      (fun ts => (ts.player_ids.countP (fun x => x = pid) : Int))).sum := by
    apply List.sum_nonneg
    intro x hx
    rw [List.mem_map] at hx
    obtain ⟨ts, _, rfl⟩ := hx
    positivity
  linarith

theorem refP_nonneg (sessions : List GameSession) (pid : String) :
    0 ≤ refP sessions pid := by
  apply List.sum_nonneg
  intro x hx
  rw [List.mem_map] at hx
  obtain ⟨s, _, rfl⟩ := hx
  exact refP_session_nonneg s pid

theorem refT_session_nonneg (sess : GameSession) (tid : String) :
    0 ≤ refT_session sess tid := by
  rw [refT_session]
  positivity

theorem refT_nonneg (sessions : List GameSession) (tid : String) :
    0 ≤ refT sessions tid := by
  apply List.sum_nonneg
  intro x hx
  rw [List.mem_map] at hx
  obtain ⟨s, _, rfl⟩ := hx
  exact refT_session_nonneg s tid

/-- The inductive invariant: document ids are duplicate-free and every
entity's `games_played` dominates the number of live session references to
it (each reference corresponds to one not-yet-reverted `+1`). -/
def DBInv (db : DB) : Prop :=
  (db.players.map Player.id).Nodup
    ∧ (db.teams.map Team.id).Nodup
    ∧ (∀ d ∈ db.players, refP db.sessions d.id ≤ d.games_played)
    ∧ (∀ t ∈ db.teams, refT db.sessions t.id ≤ t.games_played)

/-! ## Pointwise description of increment lists -/

def sumS (L : List Inc) (k : String) : Int :=
  ((L.filter (fun e => e.1 = k)).map (fun e => e.2.1)).sum

def sumG (L : List Inc) (k : String) : Int :=
  ((L.filter (fun e => e.1 = k)).map (fun e => e.2.2)).sum

theorem sumS_cons (e : Inc) (L : List Inc) (k : String) :
    sumS (e :: L) k = (if e.1 = k then e.2.1 else 0) + sumS L k := by
  by_cases h : e.1 = k <;> simp [sumS, List.filter_cons, h]

theorem sumG_cons (e : Inc) (L : List Inc) (k : String) :
    sumG (e :: L) k = (if e.1 = k then e.2.2 else 0) + sumG L k := by
  by_cases h : e.1 = k <;> simp [sumG, List.filter_cons, h]

theorem sumS_append (L1 L2 : List Inc) (k : String) :
    sumS (L1 ++ L2) k = sumS L1 k + sumS L2 k := by
  simp [sumS, List.filter_append]

theorem sumG_append (L1 L2 : List Inc) (k : String) :
    sumG (L1 ++ L2) k = sumG L1 k + sumG L2 k := by
  simp [sumG, List.filter_append]

theorem sumG_negList (L : List Inc) (k : String) : sumG (negList L) k = -sumG L k := by
  induction L with
  | nil => simp [negList, sumG]
  | cons e L ih =>
    rw [negList_cons, sumG_cons, sumG_cons, ih]
    by_cases h : e.1 = k <;> simp [h] <;> ring

theorem sumS_negList (L : List Inc) (k : String) : sumS (negList L) k = -sumS L k := by
  induction L with
  | nil => simp [negList, sumS]
  | cons e L ih =>
    rw [negList_cons, sumS_cons, sumS_cons, ih]
    by_cases h : e.1 = k <;> simp [h] <;> ring

/-- The pointwise effect of an increment list on one player document. -/
def addIncsDoc (L : List Inc) (d : Player) : Player :=
  { d with total_score := d.total_score + sumS L d.id,
           games_played := d.games_played + sumG L d.id }

/-- The pointwise effect of an increment list on one team document. -/
def addIncsTeamDoc (L : List Inc) (t : Team) : Team :=
  { t with total_score := t.total_score + sumS L t.id,
           games_played := t.games_played + sumG L t.id }

theorem map_ite_self_of_ne (pid : String) (f : Player → Player)
    (l : List Player) (h : ∀ d ∈ l, d.id ≠ pid) :
    l.map (fun d => if d.id = pid then f d else d) = l := by
  have h' : ∀ d ∈ l, (if d.id = pid then f d else d) = id d := by
    intro d hd
    rw [if_neg (h d hd)]
    rfl
  rw [List.map_congr_left h', List.map_id]

theorem map_ite_self_of_ne_team (tid : String) (f : Team → Team)
    (l : List Team) (h : ∀ t ∈ l, t.id ≠ tid) :
    l.map (fun t => if t.id = tid then f t else t) = l := by
  have h' : ∀ t ∈ l, (if t.id = tid then f t else t) = id t := by
    intro t ht
    rw [if_neg (h t ht)]
    rfl
  rw [List.map_congr_left h', List.map_id]

theorem updateFirst_cons_pos {p : α → Bool} {f : α → α} {a : α} {l : List α}
    (h : p a = true) : updateFirst p f (a :: l) = f a :: l := by
  simp [updateFirst, h]

theorem updateFirst_cons_neg {p : α → Bool} {f : α → α} {a : α} {l : List α}
    (h : p a = false) : updateFirst p f (a :: l) = a :: updateFirst p f l := by
  simp [updateFirst, h]

theorem incFirstPlayer_eq_map (pid : String) (ds dg : Int) :
    ∀ l : List Player, (l.map Player.id).Nodup →
      incFirstPlayer pid ds dg l
        = l.map (fun d => if d.id = pid then incPlayerDoc ds dg d else d) := by
  intro l
  induction l with
  | nil => intro _; rfl
  | cons a l ih =>
    intro hnd
    rw [List.map_cons, List.nodup_cons] at hnd
    obtain ⟨hanot, hnd⟩ := hnd
    by_cases ha : a.id = pid
    · have htail : ∀ d ∈ l, d.id ≠ pid := by
        intro d hd hc
        exact hanot (by rw [ha, ← hc]; exact List.mem_map_of_mem _ hd)
      rw [incFirstPlayer, updateFirst_cons_pos (by simp [ha]), List.map_cons, if_pos ha,
        map_ite_self_of_ne pid _ l htail]
    · rw [incFirstPlayer, updateFirst_cons_neg (by simp [ha]), List.map_cons, if_neg ha]
      exact congrArg (a :: .) (ih hnd)

theorem incFirstTeam_eq_map (tid : String) (ds dg : Int) :
    ∀ l : List Team, (l.map Team.id).Nodup →
      incFirstTeam tid ds dg l
        = l.map (fun t => if t.id = tid then incTeamDoc ds dg t else t) := by
  intro l
  induction l with
  | nil => intro _; rfl
  | cons a l ih =>
    intro hnd
    rw [List.map_cons, List.nodup_cons] at hnd
    obtain ⟨hanot, hnd⟩ := hnd
    by_cases ha : a.id = tid
    · have htail : ∀ t ∈ l, t.id ≠ tid := by
        intro t ht hc
        exact hanot (by rw [ha, ← hc]; exact List.mem_map_of_mem _ ht)
      rw [incFirstTeam, updateFirst_cons_pos (by simp [ha]), List.map_cons, if_pos ha,
        map_ite_self_of_ne_team tid _ l htail]
    · rw [incFirstTeam, updateFirst_cons_neg (by simp [ha]), List.map_cons, if_neg ha]
      exact congrArg (a :: .) (ih hnd)

theorem applyIncsP_eq_map (L : List Inc) :
    ∀ l : List Player, (l.map Player.id).Nodup →
      applyIncsP L l = l.map (addIncsDoc L) := by
  induction L with
  | nil =>
    intro l _
    have h0 : ∀ d ∈ l, addIncsDoc [] d = id d := by
      intro d _
      cases d
      simp [addIncsDoc, sumS, sumG]
    rw [List.map_congr_left h0, List.map_id]
    rfl
  | cons e L ih =>
    intro l hnd
    show applyIncsP L (incFirstPlayer e.1 e.2.1 e.2.2 l) = l.map (addIncsDoc (e :: L))
    rw [incFirstPlayer_eq_map e.1 e.2.1 e.2.2 l hnd]
    have hids : ((l.map (fun d => if d.id = e.1 then incPlayerDoc e.2.1 e.2.2 d else d)).map
        Player.id) = l.map Player.id := by
      rw [List.map_map]
      apply List.map_congr_left
      intro d _
      by_cases h : d.id = e.1 <;> simp [h, incPlayerDoc]
    rw [ih _ (by rw [hids]; exact hnd), List.map_map]
    apply List.map_congr_left
    intro d _
    show addIncsDoc L (if d.id = e.1 then incPlayerDoc e.2.1 e.2.2 d else d)
        = addIncsDoc (e :: L) d
    by_cases h : d.id = e.1
    · rw [if_pos h]
      cases d
      simp only [addIncsDoc, incPlayerDoc, sumS_cons, sumG_cons] at *
      simp only [h]
      simp
      constructor <;> ring
    · rw [if_neg h]
      cases d
      simp only [addIncsDoc, sumS_cons, sumG_cons]
      have h' : ¬ e.1 = _ := fun hc => h hc.symm
      simp [h']

theorem applyIncsT_eq_map (L : List Inc) :
    ∀ l : List Team, (l.map Team.id).Nodup →
      applyIncsT L l = l.map (addIncsTeamDoc L) := by
  induction L with
  | nil =>
    intro l _
    have h0 : ∀ t ∈ l, addIncsTeamDoc [] t = id t := by
      intro t _
      cases t
      simp [addIncsTeamDoc, sumS, sumG]
    rw [List.map_congr_left h0, List.map_id]
    rfl
  | cons e L ih =>
    intro l hnd
    show applyIncsT L (incFirstTeam e.1 e.2.1 e.2.2 l) = l.map (addIncsTeamDoc (e :: L))
    rw [incFirstTeam_eq_map e.1 e.2.1 e.2.2 l hnd]
    have hids : ((l.map (fun t => if t.id = e.1 then incTeamDoc e.2.1 e.2.2 t else t)).map
        Team.id) = l.map Team.id := by
      rw [List.map_map]
      apply List.map_congr_left
      intro t _
      by_cases h : t.id = e.1 <;> simp [h, incTeamDoc]
    rw [ih _ (by rw [hids]; exact hnd), List.map_map]
    apply List.map_congr_left
    intro t _
    show addIncsTeamDoc L (if t.id = e.1 then incTeamDoc e.2.1 e.2.2 t else t)
        = addIncsTeamDoc (e :: L) t
    by_cases h : t.id = e.1
    · rw [if_pos h]
      cases t
      simp only [addIncsTeamDoc, incTeamDoc, sumS_cons, sumG_cons] at *
      simp only [h]
      simp
      constructor <;> ring
    · rw [if_neg h]
      cases t
      simp only [addIncsTeamDoc, sumS_cons, sumG_cons]
      have h' : ¬ e.1 = _ := fun hc => h hc.symm
      simp [h']

theorem sumG_map_one (key : β → String) (val : β → Int) (xs : List β) (k : String) :
    sumG (xs.map (fun x => (key x, val x, (1 : Int)))) k
      = (xs.countP (fun x => key x = k) : Int) := by
  induction xs with
  | nil => simp [sumG]
  | cons x xs ih =>
    rw [List.map_cons, sumG_cons, List.countP_cons, ih]
    by_cases h : key x = k
    · simp only [h, decide_True, if_true]
      push_cast
      omega
    · simp [h]

theorem sumG_listJoin (Ls : List (List Inc)) (k : String) :
    sumG (listJoin Ls) k = (Ls.map (fun L => sumG L k)).sum := by
  induction Ls with
  | nil => simp [listJoin, sumG]
  | cons a Ls ih => rw [listJoin, sumG_append, List.map_cons, List.sum_cons, ih]

theorem sumG_teamIncs (ts : TeamScore) (k : String) :
    sumG (teamIncs ts) k = (ts.player_ids.countP (fun x => x = k) : Int) := by
  by_cases h : ts.player_ids = []
  · simp [teamIncs, h, sumG]
  · rw [teamIncs, if_pos h]
    exact sumG_map_one (fun pid => pid) (fun _ => Int.fdiv ts.score ts.player_ids.length)
      ts.player_ids k

theorem sumG_createIncsP (sess : GameSession) (pid : String) :
    sumG (createIncsP sess) pid = refP_session sess pid := by
  rw [createIncsP, sumG_append, sumG_listJoin, List.map_map,
    sumG_map_one (fun e => e.player_id) (fun e => e.score) sess.player_scores pid,
    refP_session]
  congr 1
  exact congrArg List.sum (List.map_congr_left (fun ts _ => sumG_teamIncs ts pid))

theorem sumG_createIncsT (sess : GameSession) (tid : String) :
    sumG (createIncsT sess) tid = refT_session sess tid := by
  rw [createIncsT,
    sumG_map_one (fun ts => ts.team_id) (fun ts => ts.score) sess.team_scores tid,
    refT_session]

theorem applyIncsP_map_id (L : List Inc) (l : List Player)
    (hnd : (l.map Player.id).Nodup) :
    (applyIncsP L l).map Player.id = l.map Player.id := by
  rw [applyIncsP_eq_map L l hnd, List.map_map]
  exact List.map_congr_left (fun d _ => rfl)

theorem applyIncsT_map_id (L : List Inc) (l : List Team)
    (hnd : (l.map Team.id).Nodup) :
    (applyIncsT L l).map Team.id = l.map Team.id := by
  rw [applyIncsT_eq_map L l hnd, List.map_map]
  exact List.map_congr_left (fun t _ => rfl)

theorem refP_append (l1 l2 : List GameSession) (pid : String) :
    refP (l1 ++ l2) pid = refP l1 pid + refP l2 pid := by
  simp [refP]

theorem refT_append (l1 l2 : List GameSession) (tid : String) :
    refT (l1 ++ l2) tid = refT l1 tid + refT l2 tid := by
  simp [refT]

theorem find?_eraseP_split (p : α → Bool) :
    ∀ (l : List α) (a : α), l.find? p = some a →
      ∃ l1 l2, l = l1 ++ a :: l2 ∧ l.eraseP p = l1 ++ l2 := by
  intro l
  induction l with
  | nil => intro a h; cases h
  | cons x l ih =>
    intro a h
    by_cases hx : p x = true
    · rw [List.find?_cons_of_pos _ hx] at h
      injection h with h
      subst h
      exact ⟨[], l, rfl, by rw [List.eraseP_cons_of_pos hx]; rfl⟩
    · have hx' : ¬ p x = true := hx
      rw [List.find?_cons_of_neg _ hx'] at h
      obtain ⟨l1, l2, hsplit, herase⟩ := ih a h
      refine ⟨x :: l1, l2, by rw [List.cons_append, ← hsplit], ?_⟩
      rw [List.eraseP_cons_of_neg hx', herase]
      rfl

/-- Successful `delete_game_session` in increment-list form: the first
session with the given id is found, its negated increments are applied, and
the session document is removed. -/
theorem delete_game_session_eq (sid : String) (db db' : DB)
    (h : delete_game_session sid db = some db') :
    ∃ sess, db.sessions.find? (fun s => s.id = sid) = some sess
      ∧ db' = { players := applyIncsP (negList (createIncsP sess)) db.players,
                teams := applyIncsT (negList (createIncsT sess)) db.teams,
                sessions := db.sessions.eraseP (fun s => s.id = sid) } := by
  rw [delete_game_session] at h
  cases hf : db.sessions.find? (fun s => s.id = sid) with
  | none => rw [hf] at h; cases h
  | some sess =>
    rw [hf] at h
    injection h with h
    refine ⟨sess, rfl, ?_⟩
    rw [← h, revert_player_team_stats_decomp]

theorem fresh_not_player_id (db : DB) (id : String) (h : ¬ idUsed db id) :
    ∀ d ∈ db.players, d.id ≠ id := by
  intro d hd hc
  exact h (Or.inl ⟨d, hd, hc⟩)

theorem fresh_not_team_id (db : DB) (id : String) (h : ¬ idUsed db id) :
    ∀ t ∈ db.teams, t.id ≠ id := by
  intro t ht hc
  exact h (Or.inr (Or.inl ⟨t, ht, Or.inl hc⟩))

theorem refP_zero_of_fresh (db : DB) (id : String) (h : ¬ idUsed db id) :
    refP db.sessions id = 0 := by
  rw [refP]
  apply List.sum_eq_zero
  intro x hx
  rw [List.mem_map] at hx
  obtain ⟨s, hs, rfl⟩ := hx
  rw [refP_session]
  have h1 : s.player_scores.countP (fun e => e.player_id = id) = 0 := by
    rw [List.countP_eq_zero]
    intro e he
    simp only [decide_eq_true_eq]
    intro hc
    exact h (Or.inr (Or.inr ⟨s, hs, Or.inr (Or.inl ⟨e, he, hc⟩)⟩))
  have h2 : ∀ ts ∈ s.team_scores, ts.player_ids.countP (fun x => x = id) = 0 := by
    intro ts hts
    rw [List.countP_eq_zero]
    intro x hxm
    simp only [decide_eq_true_eq]
    intro hc
    subst hc
    exact h (Or.inr (Or.inr ⟨s, hs, Or.inr (Or.inr ⟨ts, hts, Or.inr hxm⟩)⟩))
  rw [h1]
  have h3 : (s.team_scores.map
      (fun ts => (ts.player_ids.countP (fun x => x = id) : Int))).sum = 0 := by
    apply List.sum_eq_zero
    intro x hx
    rw [List.mem_map] at hx
    obtain ⟨ts, hts, rfl⟩ := hx
    rw [h2 ts hts]
    rfl
  rw [h3]
  rfl

theorem refT_zero_of_fresh (db : DB) (id : String) (h : ¬ idUsed db id) :
    refT db.sessions id = 0 := by
  rw [refT]
  apply List.sum_eq_zero
  intro x hx
  rw [List.mem_map] at hx
  obtain ⟨s, hs, rfl⟩ := hx
  rw [refT_session]
  have h1 : s.team_scores.countP (fun ts => ts.team_id = id) = 0 := by
    rw [List.countP_eq_zero]
    intro ts hts
    simp only [decide_eq_true_eq]
    intro hc
    exact h (Or.inr (Or.inr ⟨s, hs, Or.inr (Or.inr ⟨ts, hts, Or.inl hc⟩)⟩))
  rw [h1]
  rfl

theorem mem_eraseP_players (l : List Player) (pid : String)
    (hnd : (l.map Player.id).Nodup) :
    ∀ d ∈ l.eraseP (fun d => d.id = pid), d ∈ l ∧ d.id ≠ pid := by
  induction l with
  | nil => intro d hd; cases hd
  | cons a l ih =>
    rw [List.map_cons, List.nodup_cons] at hnd
    obtain ⟨hanot, hnd⟩ := hnd
    by_cases ha : a.id = pid
    · rw [List.eraseP_cons_of_pos (by simp [ha])]
      intro d hd
      refine ⟨List.mem_cons_of_mem a hd, ?_⟩
      intro hc
      exact hanot (by rw [ha, ← hc]; exact List.mem_map_of_mem _ hd)
    · rw [List.eraseP_cons_of_neg (by simp [ha])]
      intro d hd
      rw [List.mem_cons] at hd
      rcases hd with rfl | hd
      · exact ⟨by simp, ha⟩
      · obtain ⟨hmem, hne⟩ := ih hnd d hd
        exact ⟨List.mem_cons_of_mem a hmem, hne⟩

theorem countP_filter_player_ne (ps : List PlayerScore) (pid q : String)
    (hne : q ≠ pid) :
    ((ps.filter (fun e => e.player_id ≠ pid)).countP (fun e => e.player_id = q))
      = ps.countP (fun e => e.player_id = q) := by
  induction ps with
  | nil => rfl
  | cons a ps ih =>
    have hq : ¬ pid = q := fun hc => hne hc.symm
    simp only [ne_eq, decide_not] at ih ⊢
    rw [List.filter_cons]
    by_cases hp : a.player_id = pid
    · simp [hp, hq, List.countP_cons, ih]
    · simp [hp, List.countP_cons, ih]

theorem refP_session_pull (s : GameSession) (pid q : String) (hne : q ≠ pid) :
    refP_session
      { s with player_scores := s.player_scores.filter (fun e => e.player_id ≠ pid) } q
      = refP_session s q := by
  rw [refP_session, refP_session]
  rw [countP_filter_player_ne s.player_scores pid q hne]

theorem updateFirst_map_player_id (p : Player → Bool) (f : Player → Player)
    (hf : ∀ d, (f d).id = d.id) :
    ∀ l : List Player, (updateFirst p f l).map Player.id = l.map Player.id := by
  intro l
  induction l with
  | nil => rfl
  | cons a l ih =>
    by_cases hp : p a = true
    · rw [updateFirst_cons_pos hp, List.map_cons, List.map_cons, hf]
    · rw [updateFirst_cons_neg (by simp at hp ⊢; exact hp), List.map_cons, List.map_cons, ih]

theorem refP_cons (s : GameSession) (l : List GameSession) (pid : String) :
    refP (s :: l) pid = refP_session s pid + refP l pid := by
  simp [refP]

theorem refT_cons (s : GameSession) (l : List GameSession) (tid : String) :
    refT (s :: l) tid = refT_session s tid + refT l tid := by
  simp [refT]

theorem refP_map_pull (sessions : List GameSession) (pid q : String) (hne : q ≠ pid) :
    refP (sessions.map (fun s =>
        { s with player_scores := s.player_scores.filter (fun e => e.player_id ≠ pid) })) q
      = refP sessions q := by
  rw [refP, refP, List.map_map]
  exact congrArg List.sum
    (List.map_congr_left (fun s _ => refP_session_pull s pid q hne))

theorem refT_map_pull (sessions : List GameSession) (pid tid : String) :
    refT (sessions.map (fun s =>
        { s with player_scores := s.player_scores.filter (fun e => e.player_id ≠ pid) })) tid
      = refT sessions tid := by
  rw [refT, refT, List.map_map]
  exact congrArg List.sum (List.map_congr_left (fun s _ => rfl))

/-- Every public mutating operation except import preserves the
invariant. -/
theorem step_preserves_DBInv (db db' : DB) (h : Step false db db')
    (hinv : DBInv db) : DBInv db' := by
  obtain ⟨hndP, hndT, hP, hT⟩ := hinv
  cases h with
  | createPlayer id player_name group_id emoji created_date hfresh =>
    refine ⟨?_, hndT, ?_, hT⟩
    · show ((db.players
          ++ [(⟨id, player_name, group_id, emoji, 0, 0, created_date⟩ : Player)]).map
          Player.id).Nodup
      rw [List.map_append]
      apply keys_nodup_append_singleton _ _ hndP
      intro hmem
      rw [List.mem_map] at hmem
      obtain ⟨d, hd, hdid⟩ := hmem
      exact fresh_not_player_id db id hfresh d hd hdid
    · intro d hd
      rw [show (create_player id player_name group_id emoji created_date db).players
          = db.players ++ [⟨id, player_name, group_id, emoji, 0, 0, created_date⟩]
        from rfl, List.mem_append] at hd
      rcases hd with hd | hd
      · exact hP d hd
      · rw [List.mem_singleton] at hd
        subst hd
        show refP db.sessions id ≤ 0
        rw [refP_zero_of_fresh db id hfresh]
  | updatePlayer player_id player_name emoji =>
    refine ⟨?_, hndT, ?_, hT⟩
    · show ((updateFirst (fun d => d.id = player_id)
          (fun d => { d with player_name := player_name, emoji := emoji })
          db.players).map Player.id).Nodup
      rw [updateFirst_map_player_id (fun d => d.id = player_id)
        (fun d => { d with player_name := player_name, emoji := emoji })
        (fun d => rfl)]
      exact hndP
    · intro d hd
      have hmem := mem_updateFirst _ _ _ d hd
      rcases hmem with hmem | ⟨d0, hd0, rfl⟩
      · exact hP d hmem
      · exact hP d0 hd0
  | deletePlayer player_id =>
    refine ⟨?_, ?_, ?_, ?_⟩
    · show ((db.players.eraseP (fun d => d.id = player_id)).map Player.id).Nodup
      exact ((db.players.eraseP_sublist).map Player.id).nodup hndP
    · show ((db.teams.map _).map Team.id).Nodup
      rw [List.map_map]
      rw [show (Team.id ∘ fun t : Team =>
          { t with player_ids := t.player_ids.filter (fun pid => pid ≠ player_id) })
          = Team.id from funext (fun t => rfl)]
      exact hndT
    · intro d hd
      obtain ⟨hmem, hne⟩ := mem_eraseP_players db.players player_id hndP d hd
      show refP (db.sessions.map _) d.id ≤ d.games_played
      rw [refP_map_pull db.sessions player_id d.id hne]
      exact hP d hmem
    · intro t ht
      rw [show (delete_player player_id db).teams
          = db.teams.map (fun t =>
            { t with player_ids := t.player_ids.filter (fun pid => pid ≠ player_id) })
        from rfl, List.mem_map] at ht
      obtain ⟨t0, ht0, rfl⟩ := ht
      show refT (db.sessions.map _) t0.id ≤ t0.games_played
      rw [refT_map_pull db.sessions player_id t0.id]
      exact hT t0 ht0
  | createTeam id team_name group_id player_ids created_date hfresh =>
    refine ⟨hndP, ?_, hP, ?_⟩
    · show ((db.teams
          ++ [(⟨id, team_name, group_id, player_ids, 0, 0, created_date⟩ : Team)]).map
          Team.id).Nodup
      rw [List.map_append]
      apply keys_nodup_append_singleton _ _ hndT
      intro hmem
      rw [List.mem_map] at hmem
      obtain ⟨t, ht, htid⟩ := hmem
      exact fresh_not_team_id db id hfresh t ht htid
    · intro t ht
      rw [show (create_team id team_name group_id player_ids created_date db).teams
          = db.teams ++ [⟨id, team_name, group_id, player_ids, 0, 0, created_date⟩]
        from rfl, List.mem_append] at ht
      rcases ht with ht | ht
      · exact hT t ht
      · rw [List.mem_singleton] at ht
        subst ht
        show refT db.sessions id ≤ 0
        rw [refT_zero_of_fresh db id hfresh]
  | createSession sess =>
    rw [create_game_session, update_player_team_stats_decomp]
    refine ⟨?_, ?_, ?_, ?_⟩
    · show ((applyIncsP (createIncsP sess) db.players).map Player.id).Nodup
      rw [applyIncsP_map_id _ _ hndP]
      exact hndP
    · show ((applyIncsT (createIncsT sess) db.teams).map Team.id).Nodup
      rw [applyIncsT_map_id _ _ hndT]
      exact hndT
    · intro d hd
      rw [show (applyIncsP (createIncsP sess) db.players)
          = db.players.map (addIncsDoc (createIncsP sess))
        from applyIncsP_eq_map _ _ hndP, List.mem_map] at hd
      obtain ⟨d0, hd0, rfl⟩ := hd
      show refP (db.sessions ++ [sess]) (addIncsDoc (createIncsP sess) d0).id
          ≤ (addIncsDoc (createIncsP sess) d0).games_played
      have hid : (addIncsDoc (createIncsP sess) d0).id = d0.id := rfl
      have hg : (addIncsDoc (createIncsP sess) d0).games_played
          = d0.games_played + sumG (createIncsP sess) d0.id := rfl
      rw [hid, hg, refP_append, sumG_createIncsP]
      have h1 := hP d0 hd0
      have h2 : refP [sess] d0.id = refP_session sess d0.id := by
        rw [refP_cons]
        simp [refP]
      rw [h2]
      linarith
    · intro t ht
      rw [show (applyIncsT (createIncsT sess) db.teams)
          = db.teams.map (addIncsTeamDoc (createIncsT sess))
        from applyIncsT_eq_map _ _ hndT, List.mem_map] at ht
      obtain ⟨t0, ht0, rfl⟩ := ht
      show refT (db.sessions ++ [sess]) (addIncsTeamDoc (createIncsT sess) t0).id
          ≤ (addIncsTeamDoc (createIncsT sess) t0).games_played
      have hid : (addIncsTeamDoc (createIncsT sess) t0).id = t0.id := rfl
      have hg : (addIncsTeamDoc (createIncsT sess) t0).games_played
          = t0.games_played + sumG (createIncsT sess) t0.id := rfl
      rw [hid, hg, refT_append, sumG_createIncsT]
      have h1 := hT t0 ht0
      have h2 : refT [sess] t0.id = refT_session sess t0.id := by
        rw [refT_cons]
        simp [refT]
      rw [h2]
      linarith
  | deleteSession session_id db' hdel =>
    obtain ⟨sess, hfind, hdb'⟩ := delete_game_session_eq session_id db db' hdel
    obtain ⟨l1, l2, hsplit, herase⟩ := find?_eraseP_split _ db.sessions sess hfind
    subst hdb'
    refine ⟨?_, ?_, ?_, ?_⟩
    · show ((applyIncsP (negList (createIncsP sess)) db.players).map Player.id).Nodup
      rw [applyIncsP_map_id _ _ hndP]
      exact hndP
    · show ((applyIncsT (negList (createIncsT sess)) db.teams).map Team.id).Nodup
      rw [applyIncsT_map_id _ _ hndT]
      exact hndT
    · intro d hd
      rw [show (applyIncsP (negList (createIncsP sess)) db.players)
          = db.players.map (addIncsDoc (negList (createIncsP sess)))
        from applyIncsP_eq_map _ _ hndP, List.mem_map] at hd
      obtain ⟨d0, hd0, rfl⟩ := hd
      show refP (db.sessions.eraseP (fun s => s.id = session_id))
            (addIncsDoc (negList (createIncsP sess)) d0).id
          ≤ (addIncsDoc (negList (createIncsP sess)) d0).games_played
      have hid : (addIncsDoc (negList (createIncsP sess)) d0).id = d0.id := rfl
      have hg : (addIncsDoc (negList (createIncsP sess)) d0).games_played
          = d0.games_played + sumG (negList (createIncsP sess)) d0.id := rfl
      rw [hid, hg, herase, sumG_negList, sumG_createIncsP, refP_append]
      have h1 := hP d0 hd0
      rw [hsplit, refP_append, refP_cons] at h1
      linarith
    · intro t ht
      rw [show (applyIncsT (negList (createIncsT sess)) db.teams)
          = db.teams.map (addIncsTeamDoc (negList (createIncsT sess)))
        from applyIncsT_eq_map _ _ hndT, List.mem_map] at ht
      obtain ⟨t0, ht0, rfl⟩ := ht
      show refT (db.sessions.eraseP (fun s => s.id = session_id))
            (addIncsTeamDoc (negList (createIncsT sess)) t0).id
          ≤ (addIncsTeamDoc (negList (createIncsT sess)) t0).games_played
      have hid : (addIncsTeamDoc (negList (createIncsT sess)) t0).id = t0.id := rfl
      have hg : (addIncsTeamDoc (negList (createIncsT sess)) t0).games_played
          = t0.games_played + sumG (negList (createIncsT sess)) t0.id := rfl
      rw [hid, hg, herase, sumG_negList, sumG_createIncsT, refT_append]
      have h1 := hT t0 ht0
      rw [hsplit, refT_append, refT_cons] at h1
      linarith
  | importData group_id ps tl sl hforbidden =>
    cases hforbidden

theorem reachable_DBInv (db : DB) (h : Reachable false db0 db) : DBInv db := by
  induction h with
  | refl =>
    refine ⟨by simp [db0], by simp [db0], ?_, ?_⟩
    · intro d hd
      exact absurd hd (List.not_mem_nil d)
    · intro t ht
      exact absurd ht (List.not_mem_nil t)
  | tail _ hstep ih =>
    exact step_preserves_DBInv _ _ hstep ih

/-- C7 amended (the original claim is refuted by import, see the
counterexample): in every state reachable from the empty deployment through
the public operations *other than import* — session create/delete, player
create/update/delete, team create, each with server-generated fresh ids —
every existing player's and team's `games_played` is non-negative.  Import
inserts the uploaded `games_played` values verbatim and can produce
negative ones. -/
theorem c7_games_played_nonneg_without_import (db : DB)
    (h : Reachable false db0 db) :
    (∀ d ∈ db.players, 0 ≤ d.games_played)
      ∧ (∀ t ∈ db.teams, 0 ≤ t.games_played) := by
  obtain ⟨_, _, hP, hT⟩ := reachable_DBInv db h
  constructor
  · intro d hd
    exact le_trans (refP_nonneg db.sessions d.id) (hP d hd)
  · intro t ht
    exact le_trans (refT_nonneg db.sessions t.id) (hT t ht)

/-- C7 counterexample: one `import_group_data` call from the empty state —
a public operation named by the claim — yields a reachable state containing
a player whose `games_played` is `-1`, because the import trusts the
uploaded document verbatim. -/
theorem c7_import_negative_games_counterexample :
    Reachable true db0 (import_group_data "g" [⟨"p", "P", "g", "e", 0, -1, 0⟩] [] [] db0)
      ∧ ∃ d ∈ (import_group_data "g" [⟨"p", "P", "g", "e", 0, -1, 0⟩] [] [] db0).players,
          d.games_played < 0 :=
  ⟨Relation.ReflTransGen.single
      (Step.importData db0 "g" [⟨"p", "P", "g", "e", 0, -1, 0⟩] [] [] rfl),
    ⟨⟨"p", "P", "g", "e", 0, -1, 0⟩, by decide, by decide⟩⟩

/-- Concrete witness for C7's amended claim after one player creation. -/
theorem c7_games_played_nonneg_without_import_witness :
    (∀ d ∈ (create_player "p1" "Alice" "g" "e" 0 db0).players, 0 ≤ d.games_played)
      ∧ (∀ t ∈ (create_player "p1" "Alice" "g" "e" 0 db0).teams, 0 ≤ t.games_played) :=
  c7_games_played_nonneg_without_import _
    (Relation.ReflTransGen.single
      (Step.createPlayer db0 "p1" "Alice" "g" "e" 0 (by simp [idUsed, db0])))
